import Mathlib

set_option autoImplicit false

/-!
Verification of the remote-administration gateway of the `glance` repository.

Strings from the TypeScript sources are embedded as `List Char`; JavaScript
`Map`s as association lists preserving insertion order; `Date.now()` readings
and other ambient inputs (random session ids, random bytes) are passed as
explicit parameters; code that throws is embedded with `Except`.

Source files embedded below:
  - `src/lib/command-builder.ts`  (the allowlisted `CommandBuilder`)
  - `src/lib/csrf.ts`             (`validateCsrf`)
  - `src/lib/rate-limiter.ts`     (`checkRateLimit`)
  - `src/lib/session-vault.ts`    (`createSession` / `getSession` / sweep)
  - `src/lib/path-sandbox.ts`     (`sandboxPath`, with the relevant parts of
    Node's `path.posix` resolved/normalize algorithms)
  - `src/lib/ssh.ts`              (stdin write order of `executeCommand`)
  - `src/app/api/config/route.ts` (the `PUT` handler's remote-call sequence)
-/

/-! ### Character classes -/

/-- Shell metacharacters singled out by the spec's command-closure property:
`; | & $ `` ` `` \n` (the backquote is written by code point). -/
def shellMetaChars : List Char := [';', '|', '&', '$', Char.ofNat 96, '\n']

def hasShellMeta (s : List Char) : Bool := s.any (fun c => shellMetaChars.contains c)

def noShellMeta (s : List Char) : Bool := s.all (fun c => !shellMetaChars.contains c)

def isLowerAlpha (c : Char) : Bool := 97 ≤ c.toNat && c.toNat ≤ 122

def isUpperAlpha (c : Char) : Bool := 65 ≤ c.toNat && c.toNat ≤ 90

def isDigitChar (c : Char) : Bool := 48 ≤ c.toNat && c.toNat ≤ 57

/-! ### `src/lib/command-builder.ts` -/

/-- First character class of `USERNAME_REGEX = /^[a-z_][a-z0-9_-]{0,30}$/`. -/
def usernameStartChar (c : Char) : Bool := isLowerAlpha c || c = '_'

/-- Repeated character class of `USERNAME_REGEX`. -/
def usernameRestChar (c : Char) : Bool :=
  isLowerAlpha c || isDigitChar c || c = '_' || c = '-'

/-- `USERNAME_REGEX.test`: one `[a-z_]` char followed by at most 30 `[a-z0-9_-]` chars. -/
def usernameRegexTest (s : List Char) : Bool :=
  match s with
  | [] => false
  | c :: rest => usernameStartChar c && rest.length ≤ 30 && rest.all usernameRestChar

/-- Character class of `SHARE_NAME_REGEX = /^[a-zA-Z0-9_-]{1,64}$/`. -/
def shareNameChar (c : Char) : Bool :=
  isLowerAlpha c || isUpperAlpha c || isDigitChar c || c = '_' || c = '-'

def shareNameRegexTest (s : List Char) : Bool :=
  1 ≤ s.length && s.length ≤ 64 && s.all shareNameChar

/-- Character class of `SAFE_PATH_REGEX = /^[a-zA-Z0-9\/_.-]+$/`. -/
def safePathChar (c : Char) : Bool :=
  isLowerAlpha c || isUpperAlpha c || isDigitChar c || c = '/' || c = '_' || c = '.' || c = '-'

def safePathRegexTest (s : List Char) : Bool := !s.isEmpty && s.all safePathChar

def SERVICE_NAMES : List (List Char) := ["smbd".data, "nmbd".data]

def SERVICE_ACTIONS : List (List Char) :=
  ["status".data, "start".data, "stop".data, "restart".data, "reload".data]

def ALLOWED_LOG_FILES : List (List Char × List Char) :=
  [("log.smbd".data, "/var/log/samba/log.smbd".data),
   ("log.nmbd".data, "/var/log/samba/log.nmbd".data),
   ("log.winbindd".data, "/var/log/samba/log.winbindd".data)]

/-- `CommandSpec` of `command-builder.ts`. -/
structure CommandSpec where
  command : List Char
  stdin : Option (List Char) := none
  useSudo : Bool
deriving DecidableEq, Repr

def validateUsername (username : List Char) : Except (List Char) Unit :=
  if usernameRegexTest username then .ok () else .error "Invalid username".data

def validateShareName (name : List Char) : Except (List Char) Unit :=
  if shareNameRegexTest name then .ok () else .error "Invalid share name".data

def validatePath (path : List Char) : Except (List Char) Unit :=
  if path.head? ≠ some '/' then .error "Path must be absolute".data
  else if !safePathRegexTest path then .error "Path contains invalid characters".data
  else if ['.', '.'] <:+: path then .error "Path traversal is not allowed".data
  else if path.contains (Char.ofNat 0) then .error "Null bytes are not allowed in paths".data
  else .ok ()

def validateServiceName (name : List Char) : Except (List Char) Unit :=
  if SERVICE_NAMES.contains name then .ok () else .error "Invalid service name".data

def validateServiceAction (action : List Char) : Except (List Char) Unit :=
  if SERVICE_ACTIONS.contains action then .ok () else .error "Invalid service action".data

/-- `validateLineCount`; `Number.isInteger` is enforced by the `Int` type. -/
def validateLineCount (n : Int) : Except (List Char) Unit :=
  if 1 ≤ n ∧ n ≤ 1000 then .ok ()
  else .error "Line count must be an integer between 1 and 1000".data

def validatePassword (password : List Char) : Except (List Char) Unit :=
  if password.length < 8 then .error "Password must be at least 8 characters".data
  else if 128 < password.length then .error "Password must be at most 128 characters".data
  else .ok ()

def CommandBuilder.uptime : CommandSpec := { command := "uptime".data, useSudo := false }

def CommandBuilder.freeMemory : CommandSpec := { command := "free -m".data, useSudo := false }

def CommandBuilder.diskUsage : CommandSpec := { command := "df -h".data, useSudo := false }

def CommandBuilder.sambaVersion : CommandSpec :=
  { command := "smbd --version".data, useSudo := false }

def CommandBuilder.hostname : CommandSpec := { command := "hostname".data, useSudo := false }

def CommandBuilder.serviceControl (service action : List Char) :
    Except (List Char) CommandSpec :=
  match validateServiceName service with
  | .error e => .error e
  | .ok _ =>
    match validateServiceAction action with
    | .error e => .error e
    | .ok _ =>
      .ok { command := "systemctl ".data ++ action ++ " ".data ++ service,
            useSudo := action != "status".data }

def CommandBuilder.listSambaUsers : CommandSpec :=
  { command := "pdbedit -L -v".data, useSudo := true }

def CommandBuilder.addSambaUser (username password : List Char) :
    Except (List Char) CommandSpec :=
  match validateUsername username with
  | .error e => .error e
  | .ok _ =>
    match validatePassword password with
    | .error e => .error e
    | .ok _ =>
      .ok { command := "smbpasswd -a -s ".data ++ username,
            stdin := some (password ++ '\n' :: (password ++ ['\n'])),
            useSudo := true }

def CommandBuilder.changeSambaPassword (username password : List Char) :
    Except (List Char) CommandSpec :=
  match validateUsername username with
  | .error e => .error e
  | .ok _ =>
    match validatePassword password with
    | .error e => .error e
    | .ok _ =>
      .ok { command := "smbpasswd -s ".data ++ username,
            stdin := some (password ++ '\n' :: (password ++ ['\n'])),
            useSudo := true }

def CommandBuilder.deleteSambaUser (username : List Char) :
    Except (List Char) CommandSpec :=
  match validateUsername username with
  | .error e => .error e
  | .ok _ => .ok { command := "smbpasswd -x ".data ++ username, useSudo := true }

def CommandBuilder.enableSambaUser (username : List Char) :
    Except (List Char) CommandSpec :=
  match validateUsername username with
  | .error e => .error e
  | .ok _ => .ok { command := "smbpasswd -e ".data ++ username, useSudo := true }

def CommandBuilder.disableSambaUser (username : List Char) :
    Except (List Char) CommandSpec :=
  match validateUsername username with
  | .error e => .error e
  | .ok _ => .ok { command := "smbpasswd -d ".data ++ username, useSudo := true }

def CommandBuilder.checkUserExists (username : List Char) :
    Except (List Char) CommandSpec :=
  match validateUsername username with
  | .error e => .error e
  | .ok _ => .ok { command := "id ".data ++ username, useSudo := false }

def CommandBuilder.readSmbConf : CommandSpec :=
  { command := "cat /etc/samba/smb.conf".data, useSudo := true }

def CommandBuilder.testParm : CommandSpec :=
  { command := "testparm -s 2>/dev/null".data, useSudo := true }

def CommandBuilder.backupSmbConf : CommandSpec :=
  { command := "cp /etc/samba/smb.conf /etc/samba/smb.conf.bak".data, useSudo := true }

def CommandBuilder.restoreSmbConf : CommandSpec :=
  { command := "cp /etc/samba/smb.conf.bak /etc/samba/smb.conf".data, useSudo := true }

def CommandBuilder.reloadSamba : CommandSpec :=
  { command := "systemctl reload smbd".data, useSudo := true }

def CommandBuilder.smbStatus : CommandSpec :=
  { command := "smbstatus --json 2>/dev/null || smbstatus".data, useSudo := true }

def CommandBuilder.readLog (logFile : List Char) (lines : Int) :
    Except (List Char) CommandSpec :=
  match ALLOWED_LOG_FILES.find? (fun kv => kv.1 == logFile) with
  | none => .error "Invalid log file".data
  | some kv =>
    match validateLineCount lines with
    | .error e => .error e
    | .ok _ =>
      .ok { command := "tail -n ".data ++ (toString lines).data ++ " ".data ++ kv.2,
            useSudo := true }

def CommandBuilder.listLogFiles : CommandSpec :=
  { command := "ls -la /var/log/samba/".data, useSudo := true }

def CommandBuilder.listDirectory (safePath : List Char) : Except (List Char) CommandSpec :=
  match validatePath safePath with
  | .error e => .error e
  | .ok _ => .ok { command := "ls -la --time-style=long-iso ".data ++ safePath, useSudo := false }

def CommandBuilder.makeDirectory (safePath : List Char) : Except (List Char) CommandSpec :=
  match validatePath safePath with
  | .error e => .error e
  | .ok _ => .ok { command := "mkdir -p ".data ++ safePath, useSudo := false }

def CommandBuilder.removeFile (safePath : List Char) : Except (List Char) CommandSpec :=
  match validatePath safePath with
  | .error e => .error e
  | .ok _ => .ok { command := "rm ".data ++ safePath, useSudo := false }

def CommandBuilder.removeDirectory (safePath : List Char) : Except (List Char) CommandSpec :=
  match validatePath safePath with
  | .error e => .error e
  | .ok _ => .ok { command := "rm -rf ".data ++ safePath, useSudo := false }

def CommandBuilder.renameFile (safeSrc safeDst : List Char) :
    Except (List Char) CommandSpec :=
  match validatePath safeSrc with
  | .error e => .error e
  | .ok _ =>
    match validatePath safeDst with
    | .error e => .error e
    | .ok _ => .ok { command := "mv ".data ++ safeSrc ++ " ".data ++ safeDst, useSudo := false }

def CommandBuilder.getFileInfo (safePath : List Char) : Except (List Char) CommandSpec :=
  match validatePath safePath with
  | .error e => .error e
  | .ok _ => .ok { command := "stat ".data ++ safePath, useSudo := false }

def CommandBuilder.ensureSshDir : CommandSpec :=
  { command := "mkdir -p ~/.ssh && chmod 700 ~/.ssh".data, useSudo := false }

def CommandBuilder.readAuthorizedKeys : CommandSpec :=
  { command := "cat ~/.ssh/authorized_keys 2>/dev/null".data, useSudo := false }

/-- `key.replace(/"/g, String.fromCharCode(92, 34))`: every double quote is
replaced by a backslash-quote pair; no other character is touched. -/
def escapeDoubleQuotes (s : List Char) : List Char :=
  (s.map (fun c => if c = '"' then ['\\', '"'] else [c])).flatten

def CommandBuilder.addAuthorizedKey (key : List Char) : CommandSpec :=
  { command := "echo \"".data ++ escapeDoubleQuotes key
      ++ "\" >> ~/.ssh/authorized_keys && chmod 600 ~/.ssh/authorized_keys".data,
    useSudo := false }

def CommandBuilder.removeAuthorizedKey (fingerprintOrSnippet : List Char) : CommandSpec :=
  { command := "grep -v \"".data ++ escapeDoubleQuotes fingerprintOrSnippet
      ++ ("\" ~/.ssh/authorized_keys > ~/.ssh/authorized_keys.tmp 2>/dev/null; "
          ++ "mv ~/.ssh/authorized_keys.tmp ~/.ssh/authorized_keys || "
          ++ "rm -f ~/.ssh/authorized_keys.tmp").data,
    useSudo := false }

/-- One invocation of a `CommandBuilder` constructor, used to quantify over the
whole (closed) catalog at once. -/
inductive Invocation where
  | uptime | freeMemory | diskUsage | sambaVersion | hostname
  | serviceControl (service action : List Char)
  | listSambaUsers
  | addSambaUser (username password : List Char)
  | changeSambaPassword (username password : List Char)
  | deleteSambaUser (username : List Char)
  | enableSambaUser (username : List Char)
  | disableSambaUser (username : List Char)
  | checkUserExists (username : List Char)
  | readSmbConf | testParm | backupSmbConf | restoreSmbConf | reloadSamba | smbStatus
  | readLog (logFile : List Char) (lines : Int)
  | listLogFiles
  | listDirectory (safePath : List Char)
  | makeDirectory (safePath : List Char)
  | removeFile (safePath : List Char)
  | removeDirectory (safePath : List Char)
  | renameFile (safeSrc safeDst : List Char)
  | getFileInfo (safePath : List Char)
  | ensureSshDir | readAuthorizedKeys
  | addAuthorizedKey (key : List Char)
  | removeAuthorizedKey (fingerprintOrSnippet : List Char)

/-- Dispatch an invocation to its constructor (total constructors wrapped in `.ok`). -/
def CommandBuilder.run : Invocation → Except (List Char) CommandSpec
  | .uptime => .ok CommandBuilder.uptime
  | .freeMemory => .ok CommandBuilder.freeMemory
  | .diskUsage => .ok CommandBuilder.diskUsage
  | .sambaVersion => .ok CommandBuilder.sambaVersion
  | .hostname => .ok CommandBuilder.hostname
  | .serviceControl s a => CommandBuilder.serviceControl s a
  | .listSambaUsers => .ok CommandBuilder.listSambaUsers
  | .addSambaUser u p => CommandBuilder.addSambaUser u p
  | .changeSambaPassword u p => CommandBuilder.changeSambaPassword u p
  | .deleteSambaUser u => CommandBuilder.deleteSambaUser u
  | .enableSambaUser u => CommandBuilder.enableSambaUser u
  | .disableSambaUser u => CommandBuilder.disableSambaUser u
  | .checkUserExists u => CommandBuilder.checkUserExists u
  | .readSmbConf => .ok CommandBuilder.readSmbConf
  | .testParm => .ok CommandBuilder.testParm
  | .backupSmbConf => .ok CommandBuilder.backupSmbConf
  | .restoreSmbConf => .ok CommandBuilder.restoreSmbConf
  | .reloadSamba => .ok CommandBuilder.reloadSamba
  | .smbStatus => .ok CommandBuilder.smbStatus
  | .readLog f n => CommandBuilder.readLog f n
  | .listLogFiles => .ok CommandBuilder.listLogFiles
  | .listDirectory p => CommandBuilder.listDirectory p
  | .makeDirectory p => CommandBuilder.makeDirectory p
  | .removeFile p => CommandBuilder.removeFile p
  | .removeDirectory p => CommandBuilder.removeDirectory p
  | .renameFile s d => CommandBuilder.renameFile s d
  | .getFileInfo p => CommandBuilder.getFileInfo p
  | .ensureSshDir => .ok CommandBuilder.ensureSshDir
  | .readAuthorizedKeys => .ok CommandBuilder.readAuthorizedKeys
  | .addAuthorizedKey k => .ok (CommandBuilder.addAuthorizedKey k)
  | .removeAuthorizedKey s => .ok (CommandBuilder.removeAuthorizedKey s)

/-- The operator-supplied string arguments of an invocation. -/
def stringArgs : Invocation → List (List Char)
  | .serviceControl s a => [s, a]
  | .addSambaUser u p => [u, p]
  | .changeSambaPassword u p => [u, p]
  | .deleteSambaUser u => [u]
  | .enableSambaUser u => [u]
  | .disableSambaUser u => [u]
  | .checkUserExists u => [u]
  | .readLog f _ => [f]
  | .listDirectory p => [p]
  | .makeDirectory p => [p]
  | .removeFile p => [p]
  | .removeDirectory p => [p]
  | .renameFile s d => [s, d]
  | .getFileInfo p => [p]
  | .addAuthorizedKey k => [k]
  | .removeAuthorizedKey s => [s]
  | _ => []

/-- The two ssh-key constructors, which the code exempts from validation. -/
def isKeyBuilder : Invocation → Bool
  | .addAuthorizedKey _ => true
  | .removeAuthorizedKey _ => true
  | _ => false

/-! ### `src/lib/csrf.ts` -/

/-- Value of a hexadecimal digit, case-insensitive, as in Node's hex decoder. -/
def hexVal (c : Char) : Option Nat :=
  if 48 ≤ c.toNat ∧ c.toNat ≤ 57 then some (c.toNat - 48)
  else if 97 ≤ c.toNat ∧ c.toNat ≤ 102 then some (c.toNat - 87)
  else if 65 ≤ c.toNat ∧ c.toNat ≤ 70 then some (c.toNat - 55)
  else none

/-- `Buffer.from(s, "hex")`: bytes are decoded two characters at a time and
decoding stops (truncating the buffer) at the first invalid pair or lone
trailing character. -/
def hexDecode : List Char → List Nat
  | a :: b :: rest =>
    match hexVal a, hexVal b with
    | some x, some y => (16 * x + y) :: hexDecode rest
    | _, _ => []
  | _ => []

/-- `crypto.timingSafeEqual`: throws when the buffers differ in length,
otherwise reports byte equality. -/
def timingSafeEqual (a b : List Nat) : Except Unit Bool :=
  if a.length = b.length then .ok (a == b) else .error ()

/-- `validateCsrf(cookieValue, headerValue)`; `undefined` is `none`, and the
JS truthiness test also rejects the empty string. -/
def validateCsrf (cookieValue headerValue : Option (List Char)) : Bool :=
  match cookieValue, headerValue with
  | some cv, some hv =>
    if cv.isEmpty || hv.isEmpty then false
    else if cv.length != 64 || hv.length != 64 then false
    else
      match timingSafeEqual (hexDecode cv) (hexDecode hv) with
      | .ok r => r
      | .error _ => false
  | _, _ => false

/-- A 64-character string of hexadecimal digits (the spec's notion of a valid token). -/
def isHex64 (s : List Char) : Bool := s.length == 64 && s.all (fun c => (hexVal c).isSome)

/-! ### `src/lib/rate-limiter.ts` -/

structure RateLimitResult where
  allowed : Bool
  retryAfterMs : Int
  remaining : Int
deriving DecidableEq, Repr

/-- `checkRateLimit(key, maxRequests, windowMs)` restricted to one key: the
key's stored timestamp list and the `Date.now()` reading are explicit.  Returns
the result object together with the list stored back for the key.  (When
`maxRequests = 0` and the pruned list is empty the JS code reads
`timestamps[0]` as `undefined`, producing a `NaN` retry value; the embedding
uses `head?.getD 0` there — the claims only concern `maxRequests ≥ 1`.) -/
def checkRateLimit (timestamps : List Int) (now : Int) (maxRequests : Nat)
    (windowMs : Int) : RateLimitResult × List Int :=
  let ts := timestamps.filter (fun t => now - t < windowMs)
  if maxRequests ≤ ts.length then
    ({ allowed := false, retryAfterMs := ts.head?.getD 0 + windowMs - now, remaining := 0 },
     ts)
  else
    ({ allowed := true, retryAfterMs := 0,
       remaining := (maxRequests : Int) - ((ts.length : Int) + 1) },
     ts ++ [now])

/-- Stored-list transition of one `checkRateLimit` call. -/
def rlStep (maxRequests : Nat) (windowMs : Int) (st : List Int) (t : Int) : List Int :=
  (checkRateLimit st t maxRequests windowMs).2

/-- The key's stored list after a sequence of calls starting from no entry. -/
def runRateLimit (maxRequests : Nat) (windowMs : Int) (calls : List Int) : List Int :=
  calls.foldl (rlStep maxRequests windowMs) []

/-! ### `src/lib/session-vault.ts` -/

structure SessionData where
  username : String
  encryptedPassword : String
  iv : Nat
  authTag : Nat
  host : String
  port : Nat
  createdAt : Nat
  lastAccessedAt : Nat
deriving DecidableEq, Repr

/-- The vault store: a JS `Map` keyed by session id, embedded as an
association list in insertion order. -/
abbrev VaultStore := List (String × SessionData)

def mapGet (m : VaultStore) (k : String) : Option SessionData :=
  (m.find? (fun kv => kv.1 == k)).map (fun kv => kv.2)

/-- JS `Map.set`: updates the entry in place if the key exists (keeping its
iteration position), otherwise appends. -/
def mapSet (m : VaultStore) (k : String) (v : SessionData) : VaultStore :=
  if m.any (fun kv => kv.1 == k) then
    m.map (fun kv => if kv.1 == k then (k, v) else kv)
  else m ++ [(k, v)]

def mapDelete (m : VaultStore) (k : String) : VaultStore :=
  m.filter (fun kv => kv.1 != k)

/-- The AES-256-GCM cipher used by `encryptPassword` comes from Node's crypto
library, external to this repository; it is embedded abstractly as
authenticated encryption: the ciphertext round-trips and the auth tag binds
the encryption key, so decryption under any other key fails.  Returns
`(encrypted, iv, authTag)` as in the source. -/
def encryptPassword (vaultKey : Nat) (iv : Nat) (password : String) : String × Nat × Nat :=
  (password, iv, vaultKey)

/-- Abstract inverse of `encryptPassword`: succeeds exactly under the key the
record was encrypted with (GCM tag verification), as `decryptPassword` throwing
is caught by `getSession`. -/
def decryptPassword (vaultKey : Nat) (encrypted : String) (authTag : Nat) : Option String :=
  if authTag = vaultKey then some encrypted else none

/-- Loop body of the eviction scan of `createSession`: keep the entry with the
strictly smallest `lastAccessedAt` seen so far (`none` plays the role of the
initial `oldestTime = Infinity`, which any entry beats). -/
def oldestStep (acc : Option (String × SessionData)) (kv : String × SessionData) :
    Option (String × SessionData) :=
  match acc with
  | none => some kv
  | some best => if kv.2.lastAccessedAt < best.2.lastAccessedAt then some kv else some best

/-- The eviction scan of `createSession`: first entry (in insertion order) with
the strictly smallest `lastAccessedAt`; `none` corresponds to the loop leaving
`oldestSid = ""`. -/
def findOldest (m : VaultStore) : Option (String × SessionData) :=
  m.foldl oldestStep none

/-- `createSession(username, password, host, port)`: the `Date.now()` reading,
the random session id from `crypto.randomUUID()`, and the random IV are
explicit parameters, as are the `MAX_SESSIONS` and vault-key configuration. -/
def createSession (maxSessions vaultKey : Nat) (store : VaultStore) (now : Nat)
    (sid : String) (iv : Nat) (username password host : String) (port : Nat) :
    String × VaultStore :=
  let store :=
    if maxSessions ≤ store.length then
      match findOldest store with
      | some oldest => mapDelete store oldest.1
      | none => store
    else store
  let enc := encryptPassword vaultKey iv password
  (sid,
   mapSet store sid
     { username := username, encryptedPassword := enc.1, iv := enc.2.1,
       authTag := enc.2.2, host := host, port := port,
       createdAt := now, lastAccessedAt := now })

structure SessionInfo where
  username : String
  password : String
  host : String
  port : Nat
deriving DecidableEq, Repr

/-- `getSession(sid)`: expiry check against `lastAccessedAt` (deleting the
expired record), sliding refresh of `lastAccessedAt`, then decryption — a
decryption failure also deletes the record. -/
def getSession (ttlMs vaultKey : Nat) (store : VaultStore) (now : Nat) (sid : String) :
    Option SessionInfo × VaultStore :=
  match mapGet store sid with
  | none => (none, store)
  | some session =>
    if ttlMs < now - session.lastAccessedAt then (none, mapDelete store sid)
    else
      let session := { session with lastAccessedAt := now }
      let store := mapSet store sid session
      match decryptPassword vaultKey session.encryptedPassword session.authTag with
      | some password =>
        (some { username := session.username, password := password,
                host := session.host, port := session.port }, store)
      | none => (none, mapDelete store sid)

def destroySession (store : VaultStore) (sid : String) : Bool × VaultStore :=
  (store.any (fun kv => kv.1 == sid), mapDelete store sid)

/-- The periodic cleanup of `startCleanup`: deletes every record whose idle
time exceeds the TTL. -/
def sweepSessions (ttlMs : Nat) (store : VaultStore) (now : Nat) : VaultStore :=
  store.filter (fun kv => !(decide (ttlMs < now - kv.2.lastAccessedAt)))

/-- One vault operation, for stating store invariants over arbitrary histories. -/
inductive VaultOp where
  | create (now : Nat) (sid : String) (iv : Nat) (username password host : String) (port : Nat)
  | get (now : Nat) (sid : String)
  | destroy (sid : String)
  | sweep (now : Nat)

def applyVaultOp (maxSessions vaultKey ttlMs : Nat) (store : VaultStore) :
    VaultOp → VaultStore
  | .create now sid iv u p h port => (createSession maxSessions vaultKey store now sid iv u p h port).2
  | .get now sid => (getSession ttlMs vaultKey store now sid).2
  | .destroy sid => (destroySession store sid).2
  | .sweep now => sweepSessions ttlMs store now

/-- The store after a history of vault operations, starting empty. -/
def runVaultOps (maxSessions vaultKey ttlMs : Nat) (ops : List VaultOp) : VaultStore :=
  ops.foldl (applyVaultOp maxSessions vaultKey ttlMs) []

/-! ### `src/lib/ssh.ts` -/

inductive StreamEvent where
  | write (data : List Char)
  | close
deriving DecidableEq, Repr

/-- The exact sequence of operations `executeCommand` performs on the exec
channel's input (ssh.ts: after `conn.exec` succeeds): the session password
followed by a newline when `spec.sudo` is set, then the spec's stdin payload
when present, then `stream.end()`. -/
def stdinScript (sessionPassword : List Char) (spec : CommandSpec) : List StreamEvent :=
  (if spec.useSudo then [StreamEvent.write (sessionPassword ++ ['\n'])] else [])
    ++ (match spec.stdin with
        | some payload => [StreamEvent.write payload]
        | none => [])
    ++ [StreamEvent.close]

/-! ### `src/app/api/config/route.ts`, PUT handler -/

/-- The remote operations the `PUT /api/config` handler can perform, in the
order they appear in the source. -/
inductive RemoteStep where
  | backup | sftpWriteNew | copyIntoPlace | testparm | restore | reload
deriving DecidableEq, Repr

/-- Remote-call trace and HTTP status of the `PUT` handler.  Transport
outcomes of the first three remote operations are explicit booleans (`false` =
the awaited call rejects, landing in the catch-all with status 500);
`testParm` resolving yields `testParmCode` (a non-zero remote exit is data,
not an exception); `restoreOk` only affects the status, since the restore
command has already been issued when it can fail. -/
def putConfig (ctxOk rateAllowed : Bool) (config : Option (List Char))
    (backupOk sftpOk copyOk : Bool) (testParmCode : Int) (restoreOk : Bool) :
    List RemoteStep × Nat :=
  if !ctxOk then ([], 401)
  else if !rateAllowed then ([], 429)
  else
    match config with
    | none => ([], 400)
    | some cfg =>
      if cfg.isEmpty then ([], 400)
      else if 65536 < cfg.length then ([], 400)
      else if !backupOk then ([RemoteStep.backup], 500)
      else if !sftpOk then ([RemoteStep.backup, RemoteStep.sftpWriteNew], 500)
      else if !copyOk then
        ([RemoteStep.backup, RemoteStep.sftpWriteNew, RemoteStep.copyIntoPlace], 500)
      else if testParmCode != 0 then
        ([RemoteStep.backup, RemoteStep.sftpWriteNew, RemoteStep.copyIntoPlace,
          RemoteStep.testparm, RemoteStep.restore], if restoreOk then 400 else 500)
      else
        ([RemoteStep.backup, RemoteStep.sftpWriteNew, RemoteStep.copyIntoPlace,
          RemoteStep.testparm, RemoteStep.reload], 200)

/-! ### Node `path.posix`, as used by `src/lib/path-sandbox.ts` -/

def consHead (c : Char) : List (List Char) → List (List Char)
  | [] => [[c]]
  | s :: ss => (c :: s) :: ss

/-- Splitting on `'/'` (as `"…".split("/")` does): empty segments are kept. -/
def splitSlash : List Char → List (List Char)
  | [] => [[]]
  | c :: rest => if c = '/' then [] :: splitSlash rest else consHead c (splitSlash rest)

/-- One segment step of Node's `normalizeString`: empty and `.` segments are
dropped; `..` pops the previous segment, or survives only when
`allowAboveRoot` (relative paths) and nothing poppable is below it. -/
def stepSeg (allowAboveRoot : Bool) (acc : List (List Char)) (seg : List Char) :
    List (List Char) :=
  if seg = [] || seg = ['.'] then acc
  else if seg = ['.', '.'] then
    match acc with
    | [] => if allowAboveRoot then [['.', '.']] else []
    | top :: rest =>
      if top = ['.', '.'] then
        (if allowAboveRoot then ['.', '.'] :: top :: rest else top :: rest)
      else rest
  else seg :: acc

/-- Node `normalizeString(path, allowAboveRoot)`, producing the resolved
segment list (most recent segment first during the fold, reversed at the end). -/
def normalizeString (p : List Char) (allowAboveRoot : Bool) : List (List Char) :=
  ((splitSlash p).foldl (stepSeg allowAboveRoot) []).reverse

def joinSlash : List (List Char) → List Char
  | [] => []
  | [s] => s
  | s :: rest => s ++ '/' :: joinSlash rest

/-- Node `path.posix.normalize`. -/
def posixNormalize (p : List Char) : List Char :=
  if p.isEmpty then ['.']
  else
    let isAbs : Bool := p.head? == some '/'
    let trailingSep : Bool := p.getLast? == some '/'
    let body := joinSlash (normalizeString p (!isAbs))
    let body := if body.isEmpty && !isAbs then ['.'] else body
    let body := if !body.isEmpty && trailingSep then body ++ ['/'] else body
    if isAbs then '/' :: body else body

/-- One step of `path.posix.resolve`'s right-to-left scan over its arguments
(ending with the working directory): empty components are skipped, and the
scan stops at the first absolute component. -/
def resolveStep (st : List Char × Bool) (p : List Char) : List Char × Bool :=
  if st.2 then st
  else if p.isEmpty then st
  else (p ++ '/' :: st.1, p.head? == some '/')

/-- Node `path.posix.resolve(args…)`, with the process working directory `cwd`
explicit (it is consulted only when no argument is absolute). -/
def posixResolve (cwd : List Char) (args : List (List Char)) : List Char :=
  let st := (args.reverse ++ [cwd]).foldl resolveStep ([], false)
  let body := joinSlash (normalizeString st.1 (!st.2))
  if st.2 then '/' :: body
  else if body.isEmpty then ['.'] else body

/-- `s.replace(/\/+$/, "")`. -/
def stripTrailingSlashes (s : List Char) : List Char :=
  (s.reverse.dropWhile (fun c => c = '/')).reverse

inductive SandboxError where
  | emptyPath | nullByte | typeError | sandboxViolation
deriving DecidableEq, Repr

deriving instance DecidableEq for Except

/-- JS truthiness of the optional `basePath` argument: `undefined` and the
empty string both behave as absent. -/
def effectiveBase (basePath : Option (List Char)) : Option (List Char) :=
  match basePath with
  | some bp => if bp.isEmpty then none else some bp
  | none => none

/-- Branch selection of `sandboxPath`: resolve against the base if one is
given, normalize an absolute input, otherwise resolve against the first
allowed root.  With no base, no leading slash and no configured root, the
JS code calls `path.posix.resolve(undefined, userPath)`, which throws a
`TypeError`. -/
def sandboxResolve (allowedRoots : List (List Char)) (cwd : List Char)
    (userPath : List Char) (basePath : Option (List Char)) :
    Except SandboxError (List Char) :=
  match effectiveBase basePath with
  | some bp => .ok (posixResolve cwd [bp, userPath])
  | none =>
    if userPath.head? == some '/' then .ok (posixNormalize userPath)
    else
      match allowedRoots.head? with
      | some root0 => .ok (posixResolve cwd [root0, userPath])
      | none => .error .typeError

/-- `resolved.replace(/\/+$/, "") || "/"`: the trailing-separator strip with
its falsy fallback to the root. -/
def sandboxNormalized (res : List Char) : List Char :=
  if (stripTrailingSlashes res).isEmpty then ['/'] else stripTrailingSlashes res

/-- One root's test inside `allowedRoots.some(...)`: the resolved path equals
the (trailing-slash-stripped) root or extends it across a separator. -/
def rootAllows (resolved root : List Char) : Bool :=
  resolved == stripTrailingSlashes root
    || (stripTrailingSlashes root ++ ['/']).isPrefixOf resolved

/-- `sandboxPath(userPath, basePath?)` of `path-sandbox.ts`.  The configured
allowed roots (the output of `getAllowedRoots()`) and the process working
directory are explicit parameters; `userPath = []` is the falsy empty-path
rejection. -/
def sandboxPath (allowedRoots : List (List Char)) (cwd : List Char)
    (userPath : List Char) (basePath : Option (List Char)) :
    Except SandboxError (List Char) :=
  if userPath.isEmpty then .error .emptyPath
  else if userPath.contains (Char.ofNat 0) then .error .nullByte
  else
    match sandboxResolve allowedRoots cwd userPath basePath with
    | .error e => .error e
    | .ok res =>
      if allowedRoots.any (rootAllows (sandboxNormalized res)) then
        .ok (sandboxNormalized res)
      else .error .sandboxViolation

/-- A path in the sandbox's post-normalization shape: either the filesystem
root, or an absolute path whose segments are all nonempty and free of `.` and
`..`, with no trailing separator. -/
def isNormalizedAbsPath (r : List Char) : Bool :=
  r == ['/'] ||
    (r.head? == some '/' &&
      (splitSlash r.tail).all (fun seg => !seg.isEmpty && seg != ['.'] && seg != ['.', '.']))

/-! ### `crypto.randomUUID` — the session id drawn at `createSession` -/

/-- Per-byte transformation of RFC 4122 version-4 UUID generation over 16
random bytes (Node's `crypto.randomUUID`): byte 6 keeps only its low nibble
under the version marker (`(b & 0x0f) | 0x40 = b % 16 + 64`), byte 8 keeps its
low six bits under the variant marker (`(b & 0x3f) | 0x80 = b % 64 + 128`),
every other byte passes through. -/
def uuidCoord (i : Fin 16) (b : Fin 256) : Nat :=
  if i.val = 6 then b.val % 16 + 64
  else if i.val = 8 then b.val % 64 + 128
  else b.val

/-- The 16 bytes of one generated UUID as a function of the 16 random bytes. -/
def randomUUIDBytes (bs : Fin 16 → Fin 256) : Fin 16 → Nat :=
  fun i => uuidCoord i (bs i)

/-- The number of values byte `i` of a generated UUID can take. -/
def nibbleDim (i : Fin 16) : Nat :=
  if i.val = 6 then 16 else if i.val = 8 then 64 else 256

def hexDigitChar : Nat → Char
  | 0 => '0' | 1 => '1' | 2 => '2' | 3 => '3' | 4 => '4'
  | 5 => '5' | 6 => '6' | 7 => '7' | 8 => '8' | 9 => '9'
  | 10 => 'a' | 11 => 'b' | 12 => 'c' | 13 => 'd' | 14 => 'e'
  | _ => 'f'

def byteHex (b : Nat) : List Char := [hexDigitChar (b / 16), hexDigitChar (b % 16)]

/-- The 8-4-4-4-12 hyphenated lowercase-hex rendering of the 16 UUID bytes. -/
def uuidFormat (g : Fin 16 → Nat) : List Char :=
  byteHex (g 0) ++ byteHex (g 1) ++ byteHex (g 2) ++ byteHex (g 3) ++ '-' ::
    (byteHex (g 4) ++ byteHex (g 5) ++ '-' ::
      (byteHex (g 6) ++ byteHex (g 7) ++ '-' ::
        (byteHex (g 8) ++ byteHex (g 9) ++ '-' ::
          (byteHex (g 10) ++ byteHex (g 11) ++ byteHex (g 12) ++ byteHex (g 13) ++
            byteHex (g 14) ++ byteHex (g 15)))))

/-- `crypto.randomUUID()` — the session id string returned by `createSession`
(session-vault.ts line 89) — as a function of its 16 random bytes. -/
def randomUUID (bs : Fin 16 → Fin 256) : List Char := uuidFormat (randomUUIDBytes bs)

/-! ## Theorems -/

/-! ### Claim C3 — `validateCsrf` -/

/-- Claim C3 (counterexample): `validateCsrf` accepts a pair of 64-character
values that are not hexadecimal and not equal to each other (Node's hex
decoder truncates both to the empty buffer, and `timingSafeEqual` compares
two empty buffers as equal), contradicting the claim that acceptance implies
both values are 64-character hex strings that are byte-equal. -/
theorem C3_counterexample :
    validateCsrf (some (List.replicate 64 'z')) (some (List.replicate 64 'x')) = true
    ∧ List.replicate 64 'z' ≠ List.replicate 64 'x'
    ∧ isHex64 (List.replicate 64 'z') = false :=
  ⟨by decide, by decide, by decide⟩

/-- Claim C3 (amended): `validateCsrf` returns `true` iff both values are
present, both are exactly 64 characters long, and the byte sequences obtained
by hex-decoding them (decoding truncates at the first non-hex pair) are
equal; missing, short, over-long or byte-mismatched pairs are rejected, and
wrong-length values are rejected before any comparison — but non-hex values
of the right length are not themselves rejected. -/
theorem C3_validateCsrf_amended (cookieValue headerValue : Option (List Char)) :
    validateCsrf cookieValue headerValue = true ↔
      ∃ cv hv, cookieValue = some cv ∧ headerValue = some hv ∧
        cv.length = 64 ∧ hv.length = 64 ∧ hexDecode cv = hexDecode hv := by
  constructor
  · intro h
    match cookieValue, headerValue with
    | none, _ => simp [validateCsrf] at h
    | some cv, none => simp [validateCsrf] at h
    | some cv, some hv =>
      refine ⟨cv, hv, rfl, rfl, ?_⟩
      simp only [validateCsrf] at h
      split at h
      · exact absurd h (by simp)
      · split at h
        · exact absurd h (by simp)
        · rename_i hlen
          simp only [Bool.or_eq_true, bne_iff_ne, not_or, not_ne_iff] at hlen
          refine ⟨hlen.1, hlen.2, ?_⟩
          unfold timingSafeEqual at h
          split at h
          · rename_i r heq
            split at heq
            · cases heq
              exact eq_of_beq h
            · cases heq
          · exact absurd h (by simp)
  · rintro ⟨cv, hv, rfl, rfl, hcl, hhl, hdec⟩
    simp only [validateCsrf]
    have hcne : cv.isEmpty = false := by
      cases cv <;> simp_all
    have hhne : hv.isEmpty = false := by
      cases hv <;> simp_all
    rw [if_neg (by simp [hcne, hhne]), if_neg (by simp [hcl, hhl])]
    unfold timingSafeEqual
    rw [if_pos (by rw [hdec]), hdec]
    simp

/-! ### Claim C10 — denied rate-limit calls record nothing -/

/-- Claim C10: a `checkRateLimit` call that returns `allowed = false` appends
no timestamp — the stored list afterwards is exactly the in-window subset of
the prior list — and therefore any later call sees the same in-window
timestamp set as if the denied call had never happened. -/
theorem C10_denied_call_appends_nothing (timestamps : List Int) (now later : Int)
    (maxRequests : Nat) (windowMs : Int)
    (hdenied : (checkRateLimit timestamps now maxRequests windowMs).1.allowed = false)
    (hlater : now ≤ later) :
    (checkRateLimit timestamps now maxRequests windowMs).2
        = timestamps.filter (fun t => now - t < windowMs)
    ∧ ((checkRateLimit timestamps now maxRequests windowMs).2).filter
          (fun t => later - t < windowMs)
        = timestamps.filter (fun t => later - t < windowMs) := by
  have hstore : (checkRateLimit timestamps now maxRequests windowMs).2
      = timestamps.filter (fun t => now - t < windowMs) := by
    by_cases hcap :
        maxRequests ≤ (timestamps.filter (fun t => decide (now - t < windowMs))).length
    · simp [checkRateLimit, hcap]
    · simp [checkRateLimit, hcap] at hdenied
  refine ⟨hstore, ?_⟩
  rw [hstore, List.filter_filter]
  refine List.filter_congr ?_
  intro t _
  by_cases h : later - t < windowMs
  · have h2 : now - t < windowMs := by omega
    simp [h, h2]
  · simp [h]

/-- Witness for C10 at a concrete denied call. -/
theorem C10_witness :
    (checkRateLimit [0, 1, 2] 5 3 10).1.allowed = false ∧ (5 : Int) ≤ 6 ∧
      ((checkRateLimit [0, 1, 2] 5 3 10).2
          = [0, 1, 2].filter (fun t => 5 - t < 10)
        ∧ ((checkRateLimit [0, 1, 2] 5 3 10).2).filter (fun t => 6 - t < 10)
          = [0, 1, 2].filter (fun t => 6 - t < 10)) :=
  ⟨by decide, by decide,
   C10_denied_call_appends_nothing [0, 1, 2] 5 6 3 10 (by decide) (by decide)⟩

/-! ### Claim C8 — elevation password before payload, close after both -/

/-- Claim C8: for every execution of `executeCommand` with a sudo-flagged
spec, the session password is the first write on the command's input channel,
the spec's stdin payload (when present) is written after it, and the channel
is closed exactly once, last, after both writes. -/
theorem C8_stdin_order (sessionPassword : List Char) (spec : CommandSpec)
    (hsudo : spec.useSudo = true) :
    (stdinScript sessionPassword spec).head?
        = some (StreamEvent.write (sessionPassword ++ ['\n']))
    ∧ (stdinScript sessionPassword spec).getLast? = some StreamEvent.close
    ∧ (stdinScript sessionPassword spec).count StreamEvent.close = 1
    ∧ (∀ payload, spec.stdin = some payload →
        stdinScript sessionPassword spec
          = [StreamEvent.write (sessionPassword ++ ['\n']), StreamEvent.write payload,
             StreamEvent.close])
    ∧ (spec.stdin = none →
        stdinScript sessionPassword spec
          = [StreamEvent.write (sessionPassword ++ ['\n']), StreamEvent.close]) := by
  obtain ⟨command, stdinPayload, useSudo⟩ := spec
  cases useSudo
  · cases hsudo
  · cases stdinPayload <;>
      simp [stdinScript, List.count_cons, List.count_nil, List.getLast?]

/-- Witness for C8 at a concrete sudo-flagged spec with a payload. -/
theorem C8_witness :
    ({ command := "smbpasswd -a -s alice".data,
       stdin := some "pw\npw\n".data, useSudo := true } : CommandSpec).useSudo = true
    ∧ (stdinScript "s3cret".data
        { command := "smbpasswd -a -s alice".data,
          stdin := some "pw\npw\n".data, useSudo := true }).head?
        = some (StreamEvent.write ("s3cret".data ++ ['\n'])) :=
  ⟨rfl,
   (C8_stdin_order "s3cret".data
     { command := "smbpasswd -a -s alice".data,
       stdin := some "pw\npw\n".data, useSudo := true } rfl).1⟩

/-! ### Claim C6 — config rollback on failed syntax check -/

/-- Claim C6: whenever the `PUT /api/config` handler reaches the remote syntax
check, a non-zero validator exit causes the backup-restore command to be
issued (exactly once) and the service reload never to be issued in that
request, while a zero exit causes the reload to be issued exactly once and
the restore never. -/
theorem C6_put_config_rollback (ctxOk rateAllowed : Bool) (config : Option (List Char))
    (backupOk sftpOk copyOk : Bool) (testParmCode : Int) (restoreOk : Bool)
    (hreach : RemoteStep.testparm ∈
      (putConfig ctxOk rateAllowed config backupOk sftpOk copyOk testParmCode restoreOk).1) :
    (testParmCode ≠ 0 →
      (putConfig ctxOk rateAllowed config backupOk sftpOk copyOk testParmCode
          restoreOk).1.count RemoteStep.restore = 1
      ∧ RemoteStep.reload ∉
        (putConfig ctxOk rateAllowed config backupOk sftpOk copyOk testParmCode restoreOk).1)
    ∧ (testParmCode = 0 →
      (putConfig ctxOk rateAllowed config backupOk sftpOk copyOk testParmCode
          restoreOk).1.count RemoteStep.reload = 1
      ∧ RemoteStep.restore ∉
        (putConfig ctxOk rateAllowed config backupOk sftpOk copyOk testParmCode restoreOk).1) := by
  rcases config with _ | cfg
  · cases ctxOk <;> cases rateAllowed <;> simp [putConfig] at hreach
  · by_cases hctx : ctxOk = true
    case neg =>
      rw [Bool.not_eq_true] at hctx
      simp [putConfig, hctx] at hreach
    by_cases hrate : rateAllowed = true
    case neg =>
      rw [Bool.not_eq_true] at hrate
      simp [putConfig, hctx, hrate] at hreach
    by_cases hempty : cfg.isEmpty = true
    case pos => simp [putConfig, hctx, hrate, hempty] at hreach
    rw [Bool.not_eq_true] at hempty
    by_cases hlen : 65536 < cfg.length
    case pos => simp [putConfig, hctx, hrate, hempty, hlen] at hreach
    by_cases hb : backupOk = true
    case neg =>
      rw [Bool.not_eq_true] at hb
      simp [putConfig, hctx, hrate, hempty, hlen, hb] at hreach
    by_cases hs : sftpOk = true
    case neg =>
      rw [Bool.not_eq_true] at hs
      simp [putConfig, hctx, hrate, hempty, hlen, hb, hs] at hreach
    by_cases hc : copyOk = true
    case neg =>
      rw [Bool.not_eq_true] at hc
      simp [putConfig, hctx, hrate, hempty, hlen, hb, hs, hc] at hreach
    constructor
    · intro hne0
      have hbne : (testParmCode != 0) = true := by simpa [bne_iff_ne] using hne0
      simp [putConfig, hctx, hrate, hempty, hlen, hb, hs, hc, hbne]
    · intro h0
      simp [putConfig, hctx, hrate, hempty, hlen, hb, hs, hc, h0]

/-- Witness for C6 at a concrete failing syntax check. -/
theorem C6_witness :
    RemoteStep.testparm ∈ (putConfig true true (some "[global]".data) true true true 1 true).1
    ∧ ((1 : Int) ≠ 0 →
        (putConfig true true (some "[global]".data) true true true 1
            true).1.count RemoteStep.restore = 1
        ∧ RemoteStep.reload ∉
          (putConfig true true (some "[global]".data) true true true 1 true).1) :=
  ⟨by decide,
   (C6_put_config_rollback true true (some "[global]".data) true true true 1 true
     (by decide)).1⟩

/-! ### Claim C5 — sliding-window rate limiting -/

/-- A key whose recorded calls all lie within one window of each other and
number at most `maxRequests` has every call recorded: the stored list after
replaying them is the call list itself. -/
theorem runRateLimit_within_window (maxRequests : Nat) (windowMs : Int) :
    ∀ l : List Int, (∀ s ∈ l, ∀ s' ∈ l, s' - s < windowMs) → l.length ≤ maxRequests →
      runRateLimit maxRequests windowMs l = l := by
  intro l
  induction l using List.reverseRecOn with
  | nil => intro _ _; rfl
  | append_singleton l' x ih =>
    intro hspan hlen
    have hlen' : l'.length ≤ maxRequests := by
      simp at hlen; omega
    have hspan' : ∀ s ∈ l', ∀ s' ∈ l', s' - s < windowMs := by
      intro s hs s' hs'
      exact hspan s (by simp [hs]) s' (by simp [hs'])
    have hrun : runRateLimit maxRequests windowMs (l' ++ [x]) =
        rlStep maxRequests windowMs (runRateLimit maxRequests windowMs l') x := by
      simp [runRateLimit, List.foldl_append]
    rw [hrun, ih hspan' hlen']
    have hkeep : l'.filter (fun s => decide (x - s < windowMs)) = l' := by
      refine List.filter_eq_self.mpr ?_
      intro s hs
      exact decide_eq_true (hspan s (by simp [hs]) x (by simp))
    have hlt : ¬ maxRequests ≤ l'.length := by
      simp at hlen; omega
    simp [rlStep, checkRateLimit, hkeep, hlt]

/-- Claim C5: starting from no record, the first `maxRequests` calls that all
fall within one window are each allowed (and recorded); with the window full,
a further call inside the window is denied with
`retryAfterMs = oldest + windowMs - now > 0`, the oldest in-window timestamp's
distance to the window edge; and once the window has fully elapsed since every
recorded request, the next call is allowed again. -/
theorem C5_rate_limit_window (maxRequests : Nat) (windowMs : Int) (calls : List Int)
    (t tNext : Int)
    (hmax : 1 ≤ maxRequests) (hwin : 0 < windowMs)
    (hlen : calls.length = maxRequests)
    (hspan : ∀ s ∈ calls, ∀ s' ∈ calls, s' - s < windowMs) :
    runRateLimit maxRequests windowMs calls = calls
    ∧ (∀ pre x post, calls = pre ++ x :: post →
        (checkRateLimit (runRateLimit maxRequests windowMs pre) x maxRequests
            windowMs).1.allowed = true)
    ∧ ((∀ s ∈ calls, t - s < windowMs) →
        ∃ h0, calls.head? = some h0 ∧
          (checkRateLimit calls t maxRequests windowMs).1
            = { allowed := false, retryAfterMs := h0 + windowMs - t, remaining := 0 }
          ∧ 0 < h0 + windowMs - t)
    ∧ ((∀ s ∈ calls, windowMs ≤ tNext - s) →
        (checkRateLimit calls tNext maxRequests windowMs).1.allowed = true
        ∧ (checkRateLimit calls tNext maxRequests windowMs).2 = [tNext]) := by
  refine ⟨runRateLimit_within_window maxRequests windowMs calls hspan (le_of_eq hlen),
    ?_, ?_, ?_⟩
  · intro pre x post hdecomp
    have hpre : ∀ s ∈ pre, s ∈ calls := by
      intro s hs; rw [hdecomp]; exact List.mem_append_left _ hs
    have hx : x ∈ calls := by rw [hdecomp]; simp
    have hprelen : pre.length < maxRequests := by
      have := congrArg List.length hdecomp
      simp at this; omega
    have hrunpre : runRateLimit maxRequests windowMs pre = pre :=
      runRateLimit_within_window maxRequests windowMs pre
        (fun s hs s' hs' => hspan s (hpre s hs) s' (hpre s' hs')) (le_of_lt hprelen)
    rw [hrunpre]
    have hkeep : pre.filter (fun s => decide (x - s < windowMs)) = pre := by
      refine List.filter_eq_self.mpr ?_
      intro s hs
      exact decide_eq_true (hspan s (hpre s hs) x hx)
    have hlt : ¬ maxRequests ≤ pre.length := by omega
    simp [checkRateLimit, hkeep, hlt]
  · intro hall
    have hkeep : calls.filter (fun s => decide (t - s < windowMs)) = calls := by
      refine List.filter_eq_self.mpr ?_
      intro s hs
      exact decide_eq_true (hall s hs)
    obtain ⟨h0, rest, hc⟩ : ∃ h0 rest, calls = h0 :: rest := by
      cases calls with
      | nil => simp at hlen; omega
      | cons a l => exact ⟨a, l, rfl⟩
    subst hc
    refine ⟨h0, rfl, ?_, ?_⟩
    · have hcap : maxRequests ≤ rest.length + 1 := by
        simpa using le_of_eq hlen.symm
      simp [checkRateLimit, hkeep, hcap]
    · have := hall h0 (by simp)
      omega
  · intro hall
    have hdrop : calls.filter (fun s => decide (tNext - s < windowMs)) = [] := by
      refine List.filter_eq_nil_iff.mpr ?_
      intro s hs
      simp only [decide_eq_true_eq]
      have := hall s hs
      omega
    have hlt : ¬ maxRequests ≤ (0 : Nat) := by omega
    constructor <;> simp [checkRateLimit, hdrop, hlt]

/-- Witness for C5 with `max = 5`, `window = 60000` ms: five calls in one
window, a denied sixth at `t = 59999` with positive retry, and an allowed call
at `t = 60004` after the window has fully elapsed. -/
theorem C5_witness :
    (1 ≤ 5 ∧ (0 : Int) < 60000 ∧ ([0, 1, 2, 3, 4] : List Int).length = 5)
    ∧ (runRateLimit 5 60000 [0, 1, 2, 3, 4] = [0, 1, 2, 3, 4]
       ∧ (∀ pre x post, ([0, 1, 2, 3, 4] : List Int) = pre ++ x :: post →
           (checkRateLimit (runRateLimit 5 60000 pre) x 5 60000).1.allowed = true)
       ∧ ((∀ s ∈ ([0, 1, 2, 3, 4] : List Int), (59999 : Int) - s < 60000) →
           ∃ h0, ([0, 1, 2, 3, 4] : List Int).head? = some h0 ∧
             (checkRateLimit [0, 1, 2, 3, 4] 59999 5 60000).1
               = { allowed := false, retryAfterMs := h0 + 60000 - 59999, remaining := 0 }
             ∧ 0 < h0 + 60000 - 59999)
       ∧ ((∀ s ∈ ([0, 1, 2, 3, 4] : List Int), (60000 : Int) ≤ 60004 - s) →
           (checkRateLimit [0, 1, 2, 3, 4] 60004 5 60000).1.allowed = true
           ∧ (checkRateLimit [0, 1, 2, 3, 4] 60004 5 60000).2 = [60004])) :=
  ⟨⟨by decide, by decide, by decide⟩,
   C5_rate_limit_window 5 60000 [0, 1, 2, 3, 4] 59999 60004 (by decide) (by decide)
     (by decide) (by decide)⟩

/-! ### Vault map lemmas -/

/-- Helper: when the key is present, the in-place update of `mapSet` is found
by `find?`. -/
theorem find?_map_set (m : VaultStore) (k : String) (v : SessionData)
    (hany : m.any (fun kv => kv.1 == k) = true) :
    (m.map (fun kv => if kv.1 == k then (k, v) else kv)).find? (fun kv => kv.1 == k)
      = some (k, v) := by
  induction m with
  | nil => simp at hany
  | cons kv rest ih =>
    by_cases hk : kv.1 = k
    · simp [List.find?_cons, hk]
    · have hrest : rest.any (fun kv => kv.1 == k) = true := by
        simp only [List.any_cons] at hany
        simpa [hk] using hany
      simpa [List.find?_cons, hk] using ih hrest

/-- Helper: `find?` over an append whose first part finds nothing. -/
theorem find?_append_of_none {α : Type} (l₁ l₂ : List α) (p : α → Bool)
    (h : l₁.find? p = none) : (l₁ ++ l₂).find? p = l₂.find? p := by
  induction l₁ with
  | nil => rfl
  | cons a rest ih =>
    cases ha : p a with
    | true => simp [List.find?_cons, ha] at h
    | false =>
      simp only [List.find?_cons, ha] at h
      simpa [List.find?_cons, ha] using ih h

theorem mapGet_mapSet_self (m : VaultStore) (k : String) (v : SessionData) :
    mapGet (mapSet m k v) k = some v := by
  unfold mapGet mapSet
  split
  · rename_i hany
    rw [find?_map_set m k v hany]
    rfl
  · rename_i hany
    have hnone : m.find? (fun kv => kv.1 == k) = none := by
      rw [List.find?_eq_none]
      intro kv hkv hp
      exact hany (List.any_eq_true.mpr ⟨kv, hkv, hp⟩)
    rw [find?_append_of_none _ _ _ hnone]
    simp [List.find?_cons]

theorem mapGet_mapDelete_self (m : VaultStore) (k : String) :
    mapGet (mapDelete m k) k = none := by
  unfold mapGet mapDelete
  cases hf : (m.filter (fun kv => kv.1 != k)).find? (fun kv => kv.1 == k) with
  | none => rfl
  | some kv =>
    have h1 := List.find?_some hf
    have h2 := List.mem_of_find?_eq_some hf
    rw [List.mem_filter] at h2
    simp only [beq_iff_eq] at h1
    simp only [bne_iff_ne, ne_eq] at h2
    exact absurd h1 h2.2

theorem mapGet_any (m : VaultStore) (k : String) (v : SessionData)
    (h : mapGet m k = some v) : m.any (fun kv => kv.1 == k) = true := by
  unfold mapGet at h
  cases hf : m.find? (fun kv => kv.1 == k) with
  | none => rw [hf] at h; cases h
  | some kv =>
    have hp := List.find?_some hf
    have hm := List.mem_of_find?_eq_some hf
    exact List.any_eq_true.mpr ⟨kv, hm, hp⟩

theorem mapSet_length_le (m : VaultStore) (k : String) (v : SessionData) :
    (mapSet m k v).length ≤ m.length + 1 := by
  unfold mapSet
  split
  · simp
  · simp

theorem mapSet_length_of_mem (m : VaultStore) (k : String) (v : SessionData)
    (h : m.any (fun kv => kv.1 == k) = true) : (mapSet m k v).length = m.length := by
  unfold mapSet
  rw [if_pos h]
  simp

theorem mapDelete_length_le (m : VaultStore) (k : String) :
    (mapDelete m k).length ≤ m.length :=
  List.length_filter_le _ m

/-- Removing a present element with `filter` strictly shrinks the list. -/
theorem length_filter_lt_of_mem {α : Type} (l : List α) (p : α → Bool) (x : α)
    (hx : x ∈ l) (hp : p x = false) : (l.filter p).length < l.length := by
  induction l with
  | nil => cases hx
  | cons a rest ih =>
    rcases List.mem_cons.mp hx with rfl | hmem
    · rw [List.filter_cons, if_neg (by simp [hp])]
      have := List.length_filter_le p rest
      simp
      omega
    · rw [List.filter_cons]
      split
      · have := ih hmem
        simp
        omega
      · have := ih hmem
        simp
        omega

theorem mapDelete_length_lt (m : VaultStore) (k : String) (v : SessionData)
    (h : (k, v) ∈ m) : (mapDelete m k).length < m.length :=
  length_filter_lt_of_mem m _ (k, v) h (by simp)

/-- The eviction fold, started at a candidate, yields a minimal entry. -/
theorem oldestStep_foldl_some (l : VaultStore) :
    ∀ b : String × SessionData, ∃ b', l.foldl oldestStep (some b) = some b'
      ∧ (b' = b ∨ b' ∈ l)
      ∧ b'.2.lastAccessedAt ≤ b.2.lastAccessedAt
      ∧ ∀ kv ∈ l, b'.2.lastAccessedAt ≤ kv.2.lastAccessedAt := by
  induction l with
  | nil => exact fun b => ⟨b, rfl, Or.inl rfl, le_refl _, by simp⟩
  | cons kv rest ih =>
    intro b
    by_cases hlt : kv.2.lastAccessedAt < b.2.lastAccessedAt
    · obtain ⟨b', h1, h2, h3, h4⟩ := ih kv
      refine ⟨b', ?_, ?_, ?_, ?_⟩
      · simpa [oldestStep, hlt] using h1
      · rcases h2 with rfl | hmem
        · exact Or.inr (List.mem_cons_self _ _)
        · exact Or.inr (List.mem_cons_of_mem _ hmem)
      · omega
      · intro kv' hkv'
        rcases List.mem_cons.mp hkv' with rfl | hmem
        · exact h3
        · exact h4 kv' hmem
    · obtain ⟨b', h1, h2, h3, h4⟩ := ih b
      refine ⟨b', ?_, ?_, h3, ?_⟩
      · simpa [oldestStep, hlt] using h1
      · rcases h2 with rfl | hmem
        · exact Or.inl rfl
        · exact Or.inr (List.mem_cons_of_mem _ hmem)
      · intro kv' hkv'
        rcases List.mem_cons.mp hkv' with rfl | hmem
        · omega
        · exact h4 kv' hmem

/-- On a nonempty store, `findOldest` returns an entry of the store whose
`lastAccessedAt` is minimal. -/
theorem findOldest_spec (m : VaultStore) (hne : m ≠ []) :
    ∃ osid sdata, findOldest m = some (osid, sdata) ∧ (osid, sdata) ∈ m
      ∧ ∀ kv ∈ m, sdata.lastAccessedAt ≤ kv.2.lastAccessedAt := by
  cases m with
  | nil => exact absurd rfl hne
  | cons kv rest =>
    obtain ⟨b', h1, h2, h3, h4⟩ := oldestStep_foldl_some rest kv
    refine ⟨b'.1, b'.2, ?_, ?_, ?_⟩
    · unfold findOldest
      simpa [oldestStep] using h1
    · rcases h2 with rfl | hmem
      · exact List.mem_cons_self _ _
      · exact List.mem_cons_of_mem _ hmem
    · intro kv' hkv'
      rcases List.mem_cons.mp hkv' with rfl | hmem
      · exact h3
      · exact h4 kv' hmem

/-! ### Claim C4 — vault round-trip and TTL expiry -/

/-- Claim C4: `createSession(u, p, h, port)` followed immediately by
`getSession` on the returned id (same clock reading, unchanged vault key)
yields exactly `{username := u, password := p, host := h, port := port}`; and
whenever more than the TTL has elapsed since a stored record's last access,
`getSession` returns `none` and, as a side effect, the record is removed from
the store. -/
theorem C4_vault_roundtrip_and_expiry :
    (∀ maxSessions vaultKey ttlMs : Nat, ∀ store : VaultStore, ∀ now : Nat,
      ∀ sid : String, ∀ iv : Nat, ∀ u p h : String, ∀ port : Nat,
      (getSession ttlMs vaultKey
          (createSession maxSessions vaultKey store now sid iv u p h port).2 now
          (createSession maxSessions vaultKey store now sid iv u p h port).1).1
        = some { username := u, password := p, host := h, port := port })
    ∧ (∀ ttlMs vaultKey : Nat, ∀ store : VaultStore, ∀ now : Nat, ∀ sid : String,
        ∀ sdata : SessionData,
        mapGet store sid = some sdata →
        sdata.lastAccessedAt + ttlMs < now →
        (getSession ttlMs vaultKey store now sid).1 = none
        ∧ mapGet (getSession ttlMs vaultKey store now sid).2 sid = none) := by
  constructor
  · intro maxSessions vaultKey ttlMs store now sid iv u p h port
    simp only [createSession, encryptPassword]
    rw [getSession, mapGet_mapSet_self]
    simp [decryptPassword]
  · intro ttlMs vaultKey store now sid sdata hget hexp
    have hcond : ttlMs < now - sdata.lastAccessedAt := by omega
    unfold getSession
    rw [hget]
    dsimp only
    rw [if_pos hcond]
    exact ⟨rfl, mapGet_mapDelete_self store sid⟩

/-! ### Claim C7 — session cap with least-recently-accessed eviction -/

/-- One vault operation keeps the store at or below the configured cap. -/
theorem applyVaultOp_length (maxSessions vaultKey ttlMs : Nat) (hmax : 1 ≤ maxSessions)
    (store : VaultStore) (op : VaultOp) (hlen : store.length ≤ maxSessions) :
    (applyVaultOp maxSessions vaultKey ttlMs store op).length ≤ maxSessions := by
  cases op with
  | create now sid iv u p h port =>
    simp only [applyVaultOp, createSession, encryptPassword]
    by_cases hcap : maxSessions ≤ store.length
    · have hne : store ≠ [] := by
        intro hnil
        rw [hnil] at hcap
        simp at hcap
        omega
      obtain ⟨osid, sdata, hfind, hmem, _⟩ := findOldest_spec store hne
      rw [if_pos hcap, hfind]
      dsimp only
      have hdel : (mapDelete store osid).length < store.length :=
        mapDelete_length_lt store osid sdata hmem
      have := mapSet_length_le (mapDelete store osid) sid
        { username := u, encryptedPassword := p, iv := iv, authTag := vaultKey,
          host := h, port := port, createdAt := now, lastAccessedAt := now }
      omega
    · rw [if_neg hcap]
      have := mapSet_length_le store sid
        { username := u, encryptedPassword := p, iv := iv, authTag := vaultKey,
          host := h, port := port, createdAt := now, lastAccessedAt := now }
      omega
  | get now sid =>
    simp only [applyVaultOp, getSession]
    cases hget : mapGet store sid with
    | none => simpa using hlen
    | some sdata =>
      simp only
      split
      · have := mapDelete_length_le store sid
        simpa using (le_trans this hlen)
      · have hany := mapGet_any store sid sdata hget
        have hset := mapSet_length_of_mem store sid
          { sdata with lastAccessedAt := now } hany
        split
        · simpa [hset] using hlen
        · have := mapDelete_length_le
            (mapSet store sid { sdata with lastAccessedAt := now }) sid
          simp only
          omega
  | destroy sid =>
    have := mapDelete_length_le store sid
    simpa [applyVaultOp, destroySession] using le_trans this hlen
  | sweep now =>
    have := List.length_filter_le
      (fun kv => !(decide (ttlMs < now - kv.2.lastAccessedAt))) store
    simpa [applyVaultOp, sweepSessions] using le_trans this hlen

/-- Claim C7: with a configured cap of at least 1, no history of vault
operations (create, get, destroy, sweep) ever leaves more than `maxSessions`
records stored; and a `createSession` arriving at (or above) the cap evicts
precisely the entry found by the scan — an entry of the store whose
`lastAccessedAt` is minimal — before inserting the new record. -/
theorem C7_vault_cap_invariant (maxSessions vaultKey ttlMs : Nat) (hmax : 1 ≤ maxSessions) :
    (∀ ops : List VaultOp, (runVaultOps maxSessions vaultKey ttlMs ops).length ≤ maxSessions)
    ∧ (∀ store : VaultStore, ∀ now : Nat, ∀ sid : String, ∀ iv : Nat,
        ∀ u p h : String, ∀ port : Nat,
        maxSessions ≤ store.length →
        ∃ osid sdata, findOldest store = some (osid, sdata) ∧ (osid, sdata) ∈ store
          ∧ (∀ kv ∈ store, sdata.lastAccessedAt ≤ kv.2.lastAccessedAt)
          ∧ (createSession maxSessions vaultKey store now sid iv u p h port).2
              = mapSet (mapDelete store osid) sid
                  { username := u, encryptedPassword := p, iv := iv, authTag := vaultKey,
                    host := h, port := port, createdAt := now, lastAccessedAt := now }) := by
  constructor
  · intro ops
    have hgen : ∀ l : List VaultOp, ∀ st : VaultStore, st.length ≤ maxSessions →
        (l.foldl (applyVaultOp maxSessions vaultKey ttlMs) st).length ≤ maxSessions := by
      intro l
      induction l with
      | nil => intro st h; simpa using h
      | cons op rest ih =>
        intro st h
        exact ih _ (applyVaultOp_length maxSessions vaultKey ttlMs hmax st op h)
    exact hgen ops [] (by simp)
  · intro store now sid iv u p h port hcap
    have hne : store ≠ [] := by
      intro hnil
      rw [hnil] at hcap
      simp at hcap
      omega
    obtain ⟨osid, sdata, hfind, hmem, hmin⟩ := findOldest_spec store hne
    refine ⟨osid, sdata, hfind, hmem, hmin, ?_⟩
    simp only [createSession, encryptPassword, if_pos hcap, hfind]

/-- Witness for C7: with cap 1, two successive creates leave one record. -/
theorem C7_witness :
    1 ≤ 1 ∧
      (runVaultOps 1 0 1000
        [VaultOp.create 5 "a" 0 "u" "p" "h" 22,
         VaultOp.create 6 "b" 0 "u2" "p2" "h2" 22]).length ≤ 1 :=
  ⟨by decide,
   (C7_vault_cap_invariant 1 0 1000 (by decide)).1
     [VaultOp.create 5 "a" 0 "u" "p" "h" 22,
      VaultOp.create 6 "b" 0 "u2" "p2" "h2" 22]⟩

/-! ### Claim C1 — command closure of the CommandBuilder catalog -/

/-- A character of the shell-metacharacter list is one of the six characters. -/
theorem meta_cases (c : Char) (h : shellMetaChars.contains c = true) :
    c = ';' ∨ c = '|' ∨ c = '&' ∨ c = '$' ∨ c = Char.ofNat 96 ∨ c = '\n' := by
  simpa [shellMetaChars] using h

theorem usernameStartChar_not_meta (c : Char) (h : usernameStartChar c = true) :
    shellMetaChars.contains c = false := by
  by_contra hmem
  rw [Bool.not_eq_false] at hmem
  rcases meta_cases c hmem with rfl | rfl | rfl | rfl | rfl | rfl <;>
    exact absurd h (by decide)

theorem usernameRestChar_not_meta (c : Char) (h : usernameRestChar c = true) :
    shellMetaChars.contains c = false := by
  by_contra hmem
  rw [Bool.not_eq_false] at hmem
  rcases meta_cases c hmem with rfl | rfl | rfl | rfl | rfl | rfl <;>
    exact absurd h (by decide)

theorem safePathChar_not_meta (c : Char) (h : safePathChar c = true) :
    shellMetaChars.contains c = false := by
  by_contra hmem
  rw [Bool.not_eq_false] at hmem
  rcases meta_cases c hmem with rfl | rfl | rfl | rfl | rfl | rfl <;>
    exact absurd h (by decide)

/-- A string cannot both contain a shell metacharacter and be free of them. -/
theorem noShellMeta_hasShellMeta_false (s : List Char) (h1 : noShellMeta s = true)
    (h2 : hasShellMeta s = true) : False := by
  obtain ⟨c, hc, hmeta⟩ := List.any_eq_true.mp h2
  have := List.all_eq_true.mp h1 c hc
  simp_all

/-- A validated username contains no shell metacharacter. -/
theorem validateUsername_noMeta (u : List Char) (hval : validateUsername u = .ok ()) :
    noShellMeta u = true := by
  unfold validateUsername at hval
  split at hval
  · rename_i hreg
    unfold usernameRegexTest at hreg
    cases u with
    | nil => simp at hreg
    | cons c rest =>
      simp only [Bool.and_eq_true] at hreg
      refine List.all_eq_true.mpr ?_
      intro x hx
      rcases List.mem_cons.mp hx with rfl | hmem
      · simpa using usernameStartChar_not_meta x hreg.1.1
      · have := List.all_eq_true.mp hreg.2 x hmem
        simpa using usernameRestChar_not_meta x this
  · cases hval

/-- A validated path contains no shell metacharacter. -/
theorem validatePath_noMeta (p : List Char) (hval : validatePath p = .ok ()) :
    noShellMeta p = true := by
  unfold validatePath at hval
  split at hval
  · cases hval
  · split at hval
    · cases hval
    · rename_i hsafe
      split at hval
      · cases hval
      · split at hval
        · cases hval
        · rw [Bool.not_eq_true', Bool.not_eq_false] at hsafe
          unfold safePathRegexTest at hsafe
          simp only [Bool.and_eq_true] at hsafe
          refine List.all_eq_true.mpr ?_
          intro x hx
          have := List.all_eq_true.mp hsafe.2 x hx
          simpa using safePathChar_not_meta x this

/-- A metacharacter-bearing string is not an infix of a metacharacter-free one. -/
theorem not_infix_of_noMeta (cmd arg : List Char) (hcmd : noShellMeta cmd = true)
    (harg : hasShellMeta arg = true) : ¬ arg <:+: cmd := by
  intro hinf
  obtain ⟨c, hc, hmeta⟩ := List.any_eq_true.mp harg
  have hcm : c ∈ cmd := hinf.subset hc
  have := List.all_eq_true.mp hcmd c hcm
  simp_all

theorem validateServiceName_cases (s : List Char)
    (h : validateServiceName s = .ok ()) : s = "smbd".data ∨ s = "nmbd".data := by
  unfold validateServiceName at h
  split at h
  · rename_i hmem
    simpa [SERVICE_NAMES] using hmem
  · cases h

theorem validateServiceAction_cases (s : List Char)
    (h : validateServiceAction s = .ok ()) :
    s = "status".data ∨ s = "start".data ∨ s = "stop".data ∨ s = "restart".data
      ∨ s = "reload".data := by
  unfold validateServiceAction at h
  split at h
  · rename_i hmem
    simpa [SERVICE_ACTIONS] using hmem
  · cases h

theorem readLog_key_cases (logFile : List Char) (kv : List Char × List Char)
    (h : ALLOWED_LOG_FILES.find? (fun kv => kv.1 == logFile) = some kv) :
    logFile = "log.smbd".data ∨ logFile = "log.nmbd".data ∨ logFile = "log.winbindd".data := by
  have hp := List.find?_some h
  have hm := List.mem_of_find?_eq_some h
  have hkey : kv.1 = logFile := by simpa using hp
  rcases (by simpa [ALLOWED_LOG_FILES] using hm :
      kv = ("log.smbd".data, "/var/log/samba/log.smbd".data)
      ∨ kv = ("log.nmbd".data, "/var/log/samba/log.nmbd".data)
      ∨ kv = ("log.winbindd".data, "/var/log/samba/log.winbindd".data)) with
      rfl | rfl | rfl
  · exact Or.inl hkey.symm
  · exact Or.inr (Or.inl hkey.symm)
  · exact Or.inr (Or.inr hkey.symm)

theorem noShellMeta_append (a b : List Char) (ha : noShellMeta a = true)
    (hb : noShellMeta b = true) : noShellMeta (a ++ b) = true := by
  unfold noShellMeta at *
  rw [List.all_append, ha, hb]
  rfl

/-- Claim C1 (counterexample): `addAuthorizedKey` accepts an argument
containing shell metacharacters without throwing, and that argument appears
verbatim inside the returned `CommandSpec`'s command text (not in a stdin
payload — the spec has none), contradicting the claim for this constructor. -/
theorem C1_counterexample :
    hasShellMeta "$(reboot)".data = true
    ∧ CommandBuilder.run (Invocation.addAuthorizedKey "$(reboot)".data)
        = .ok (CommandBuilder.addAuthorizedKey "$(reboot)".data)
    ∧ "$(reboot)".data <:+: (CommandBuilder.addAuthorizedKey "$(reboot)".data).command
    ∧ (CommandBuilder.addAuthorizedKey "$(reboot)".data).stdin = none :=
  ⟨by decide, rfl, by decide, rfl⟩

/-- Claim C1 (amended): for every constructor of the catalog except
`addAuthorizedKey` and `removeAuthorizedKey`, a string argument containing a
shell metacharacter (`; | & $`, backquote, newline) never reaches the returned
command text: either validation rejects the invocation (the constructor
throws) or the argument appears only in the stdin payload, never as a
substring of `command`.  The two ssh-key constructors are the exception: they
validate nothing and splice the operator argument — with only double quotes
escaped — directly into the command text, with no stdin payload. -/
theorem C1_command_closure_amended :
    (∀ inv : Invocation, ∀ spec : CommandSpec, CommandBuilder.run inv = .ok spec →
      isKeyBuilder inv = false →
      ∀ arg ∈ stringArgs inv, hasShellMeta arg = true → ¬ arg <:+: spec.command)
    ∧ (∀ key : List Char,
        CommandBuilder.run (Invocation.addAuthorizedKey key)
          = .ok (CommandBuilder.addAuthorizedKey key)
        ∧ (CommandBuilder.addAuthorizedKey key).command
            = "echo \"".data ++ escapeDoubleQuotes key
              ++ "\" >> ~/.ssh/authorized_keys && chmod 600 ~/.ssh/authorized_keys".data
        ∧ (CommandBuilder.addAuthorizedKey key).stdin = none)
    ∧ (∀ snip : List Char,
        CommandBuilder.run (Invocation.removeAuthorizedKey snip)
          = .ok (CommandBuilder.removeAuthorizedKey snip)
        ∧ (CommandBuilder.removeAuthorizedKey snip).command
            = "grep -v \"".data ++ escapeDoubleQuotes snip
              ++ ("\" ~/.ssh/authorized_keys > ~/.ssh/authorized_keys.tmp 2>/dev/null; "
                  ++ "mv ~/.ssh/authorized_keys.tmp ~/.ssh/authorized_keys || "
                  ++ "rm -f ~/.ssh/authorized_keys.tmp").data
        ∧ (CommandBuilder.removeAuthorizedKey snip).stdin = none) := by
  refine ⟨?_, fun key => ⟨rfl, rfl, rfl⟩, fun snip => ⟨rfl, rfl, rfl⟩⟩
  intro inv spec hrun hkey arg hargmem hmeta
  cases inv with
  | uptime => simp [stringArgs] at hargmem
  | freeMemory => simp [stringArgs] at hargmem
  | diskUsage => simp [stringArgs] at hargmem
  | sambaVersion => simp [stringArgs] at hargmem
  | hostname => simp [stringArgs] at hargmem
  | listSambaUsers => simp [stringArgs] at hargmem
  | readSmbConf => simp [stringArgs] at hargmem
  | testParm => simp [stringArgs] at hargmem
  | backupSmbConf => simp [stringArgs] at hargmem
  | restoreSmbConf => simp [stringArgs] at hargmem
  | reloadSamba => simp [stringArgs] at hargmem
  | smbStatus => simp [stringArgs] at hargmem
  | listLogFiles => simp [stringArgs] at hargmem
  | ensureSshDir => simp [stringArgs] at hargmem
  | readAuthorizedKeys => simp [stringArgs] at hargmem
  | addAuthorizedKey key => simp [isKeyBuilder] at hkey
  | removeAuthorizedKey snip => simp [isKeyBuilder] at hkey
  | serviceControl service action =>
    simp only [stringArgs, List.mem_cons, List.not_mem_nil, or_false] at hargmem
    simp only [CommandBuilder.run, CommandBuilder.serviceControl] at hrun
    split at hrun
    · cases hrun
    · rename_i hsn
      split at hrun
      · cases hrun
      · rename_i hsa
        rcases hargmem with rfl | rfl
        · rcases validateServiceName_cases arg hsn with rfl | rfl <;>
            exact absurd hmeta (by decide)
        · rcases validateServiceAction_cases arg hsa with rfl | rfl | rfl | rfl | rfl <;>
            exact absurd hmeta (by decide)
  | addSambaUser u p =>
    simp only [stringArgs, List.mem_cons, List.not_mem_nil, or_false] at hargmem
    simp only [CommandBuilder.run, CommandBuilder.addSambaUser] at hrun
    split at hrun
    · cases hrun
    · rename_i hvu
      split at hrun
      · cases hrun
      · injection hrun with hspec
        subst hspec
        rcases hargmem with rfl | rfl
        · exact (noShellMeta_hasShellMeta_false arg (validateUsername_noMeta arg hvu)
            hmeta).elim
        · exact not_infix_of_noMeta _ arg
            (noShellMeta_append _ u (by decide) (validateUsername_noMeta u hvu)) hmeta
  | changeSambaPassword u p =>
    simp only [stringArgs, List.mem_cons, List.not_mem_nil, or_false] at hargmem
    simp only [CommandBuilder.run, CommandBuilder.changeSambaPassword] at hrun
    split at hrun
    · cases hrun
    · rename_i hvu
      split at hrun
      · cases hrun
      · injection hrun with hspec
        subst hspec
        rcases hargmem with rfl | rfl
        · exact (noShellMeta_hasShellMeta_false arg (validateUsername_noMeta arg hvu)
            hmeta).elim
        · exact not_infix_of_noMeta _ arg
            (noShellMeta_append _ u (by decide) (validateUsername_noMeta u hvu)) hmeta
  | deleteSambaUser u =>
    simp only [stringArgs, List.mem_cons, List.not_mem_nil, or_false] at hargmem
    subst hargmem
    simp only [CommandBuilder.run, CommandBuilder.deleteSambaUser] at hrun
    split at hrun
    · cases hrun
    · rename_i hval
      exact (noShellMeta_hasShellMeta_false arg (validateUsername_noMeta arg hval) hmeta).elim
  | enableSambaUser u =>
    simp only [stringArgs, List.mem_cons, List.not_mem_nil, or_false] at hargmem
    subst hargmem
    simp only [CommandBuilder.run, CommandBuilder.enableSambaUser] at hrun
    split at hrun
    · cases hrun
    · rename_i hval
      exact (noShellMeta_hasShellMeta_false arg (validateUsername_noMeta arg hval) hmeta).elim
  | disableSambaUser u =>
    simp only [stringArgs, List.mem_cons, List.not_mem_nil, or_false] at hargmem
    subst hargmem
    simp only [CommandBuilder.run, CommandBuilder.disableSambaUser] at hrun
    split at hrun
    · cases hrun
    · rename_i hval
      exact (noShellMeta_hasShellMeta_false arg (validateUsername_noMeta arg hval) hmeta).elim
  | checkUserExists u =>
    simp only [stringArgs, List.mem_cons, List.not_mem_nil, or_false] at hargmem
    subst hargmem
    simp only [CommandBuilder.run, CommandBuilder.checkUserExists] at hrun
    split at hrun
    · cases hrun
    · rename_i hval
      exact (noShellMeta_hasShellMeta_false arg (validateUsername_noMeta arg hval) hmeta).elim
  | readLog logFile lines =>
    simp only [stringArgs, List.mem_cons, List.not_mem_nil, or_false] at hargmem
    subst hargmem
    simp only [CommandBuilder.run, CommandBuilder.readLog] at hrun
    split at hrun
    · cases hrun
    · rename_i kv hfind
      rcases readLog_key_cases arg kv hfind with rfl | rfl | rfl <;>
        exact absurd hmeta (by decide)
  | listDirectory p =>
    simp only [stringArgs, List.mem_cons, List.not_mem_nil, or_false] at hargmem
    subst hargmem
    simp only [CommandBuilder.run, CommandBuilder.listDirectory] at hrun
    split at hrun
    · cases hrun
    · rename_i hval
      exact (noShellMeta_hasShellMeta_false arg (validatePath_noMeta arg hval) hmeta).elim
  | makeDirectory p =>
    simp only [stringArgs, List.mem_cons, List.not_mem_nil, or_false] at hargmem
    subst hargmem
    simp only [CommandBuilder.run, CommandBuilder.makeDirectory] at hrun
    split at hrun
    · cases hrun
    · rename_i hval
      exact (noShellMeta_hasShellMeta_false arg (validatePath_noMeta arg hval) hmeta).elim
  | removeFile p =>
    simp only [stringArgs, List.mem_cons, List.not_mem_nil, or_false] at hargmem
    subst hargmem
    simp only [CommandBuilder.run, CommandBuilder.removeFile] at hrun
    split at hrun
    · cases hrun
    · rename_i hval
      exact (noShellMeta_hasShellMeta_false arg (validatePath_noMeta arg hval) hmeta).elim
  | removeDirectory p =>
    simp only [stringArgs, List.mem_cons, List.not_mem_nil, or_false] at hargmem
    subst hargmem
    simp only [CommandBuilder.run, CommandBuilder.removeDirectory] at hrun
    split at hrun
    · cases hrun
    · rename_i hval
      exact (noShellMeta_hasShellMeta_false arg (validatePath_noMeta arg hval) hmeta).elim
  | getFileInfo p =>
    simp only [stringArgs, List.mem_cons, List.not_mem_nil, or_false] at hargmem
    subst hargmem
    simp only [CommandBuilder.run, CommandBuilder.getFileInfo] at hrun
    split at hrun
    · cases hrun
    · rename_i hval
      exact (noShellMeta_hasShellMeta_false arg (validatePath_noMeta arg hval) hmeta).elim
  | renameFile src dst =>
    simp only [stringArgs, List.mem_cons, List.not_mem_nil, or_false] at hargmem
    simp only [CommandBuilder.run, CommandBuilder.renameFile] at hrun
    split at hrun
    · cases hrun
    · rename_i hv1
      split at hrun
      · cases hrun
      · rename_i hv2
        rcases hargmem with rfl | rfl
        · exact (noShellMeta_hasShellMeta_false arg (validatePath_noMeta arg hv1)
            hmeta).elim
        · exact (noShellMeta_hasShellMeta_false arg (validatePath_noMeta arg hv2)
            hmeta).elim

/-! ### Claim C2 — path sandbox containment -/

theorem splitSlash_cons (c : Char) (rest : List Char) :
    splitSlash (c :: rest)
      = if c = '/' then [] :: splitSlash rest else consHead c (splitSlash rest) := rfl

theorem splitSlash_ne_nil (l : List Char) : splitSlash l ≠ [] := by
  cases l with
  | nil => simp [splitSlash]
  | cons c rest =>
    unfold splitSlash
    split
    · simp
    · unfold consHead
      split <;> simp

theorem splitSlash_no_slash (l : List Char) : ∀ seg ∈ splitSlash l, '/' ∉ seg := by
  induction l with
  | nil =>
    intro seg hseg
    simp [splitSlash] at hseg
    simp [hseg]
  | cons c rest ih =>
    intro seg hseg
    unfold splitSlash at hseg
    by_cases hc : c = '/'
    · rw [if_pos hc] at hseg
      rcases List.mem_cons.mp hseg with rfl | hmem
      · simp
      · exact ih seg hmem
    · rw [if_neg hc] at hseg
      unfold consHead at hseg
      cases hsp : splitSlash rest with
      | nil => exact absurd hsp (splitSlash_ne_nil rest)
      | cons s ss =>
        rw [hsp] at hseg
        simp only [consHead] at hseg
        have hs : '/' ∉ s := ih s (by rw [hsp]; exact List.mem_cons_self _ _)
        rcases List.mem_cons.mp hseg with rfl | hmem
        · intro hmem'
          rcases List.mem_cons.mp hmem' with h1 | h2
          · exact hc h1.symm
          · exact hs h2
        · exact ih seg (by rw [hsp]; exact List.mem_cons_of_mem _ hmem)

theorem splitSlash_no_slash_self (s : List Char) (hs : '/' ∉ s) : splitSlash s = [s] := by
  induction s with
  | nil => rfl
  | cons c rest ih =>
    have hc : ¬ c = '/' := fun h => hs (h ▸ List.mem_cons_self _ _)
    have hrest : '/' ∉ rest := fun h => hs (List.mem_cons_of_mem _ h)
    unfold splitSlash
    rw [if_neg hc, ih hrest]
    rfl

theorem splitSlash_append_slash (s t : List Char) (hs : '/' ∉ s) :
    splitSlash (s ++ '/' :: t) = s :: splitSlash t := by
  induction s with
  | nil => simp [splitSlash]
  | cons c rest ih =>
    have hc : ¬ c = '/' := fun h => hs (h ▸ List.mem_cons_self _ _)
    have hrest : '/' ∉ rest := fun h => hs (List.mem_cons_of_mem _ h)
    rw [List.cons_append, splitSlash_cons, if_neg hc, ih hrest]
    rfl

theorem splitSlash_joinSlash (segs : List (List Char)) (hne : segs ≠ [])
    (h : ∀ s ∈ segs, '/' ∉ s) : splitSlash (joinSlash segs) = segs := by
  induction segs with
  | nil => exact absurd rfl hne
  | cons s rest ih =>
    cases rest with
    | nil => exact splitSlash_no_slash_self s (h s (List.mem_cons_self _ _))
    | cons s2 rest2 =>
      have hjoin : joinSlash (s :: s2 :: rest2) = s ++ '/' :: joinSlash (s2 :: rest2) := rfl
      rw [hjoin, splitSlash_append_slash s _ (h s (List.mem_cons_self _ _))]
      rw [ih (by simp) (fun x hx => h x (List.mem_cons_of_mem _ hx))]

/-- Segments surviving `stepSeg` folds: never empty, never `.`, slash-free,
and (for absolute paths, `allowAboveRoot = false`) never `..`. -/
theorem stepSeg_foldl_good (aar : Bool) :
    ∀ l : List (List Char), (∀ s ∈ l, '/' ∉ s) →
    ∀ acc : List (List Char),
      (∀ s ∈ acc, s ≠ [] ∧ s ≠ ['.'] ∧ '/' ∉ s ∧ (aar = false → s ≠ ['.', '.'])) →
      ∀ s ∈ l.foldl (stepSeg aar) acc,
        s ≠ [] ∧ s ≠ ['.'] ∧ '/' ∉ s ∧ (aar = false → s ≠ ['.', '.']) := by
  intro l
  induction l with
  | nil => intro _ acc hacc; simpa using hacc
  | cons seg rest ih =>
    intro hl acc hacc
    rw [List.foldl_cons]
    refine ih (fun s hs => hl s (List.mem_cons_of_mem _ hs)) _ ?_
    intro s hs
    unfold stepSeg at hs
    split at hs
    · exact hacc s hs
    · split at hs
      · rename_i hne hdd
        split at hs
        · split at hs
          · rename_i haar
            rcases List.mem_cons.mp hs with rfl | hmem
            · exact ⟨by simp, by simp, by simp, by simp [haar]⟩
            · simp at hmem
          · simp at hs
        · rename_i top restAcc
          split at hs
          · split at hs
            · rename_i htop haar
              rcases List.mem_cons.mp hs with rfl | hmem
              · exact ⟨by simp, by simp, by simp, by simp [haar]⟩
              · exact hacc s hmem
            · exact hacc s hs
          · exact hacc s (List.mem_cons_of_mem _ hs)
      · rename_i hne hdd
        rcases List.mem_cons.mp hs with rfl | hmem
        · simp only [Bool.or_eq_true, decide_eq_true_eq, not_or] at hne
          exact ⟨hne.1, hne.2, hl s (List.mem_cons_self _ _), fun _ => hdd⟩
        · exact hacc s hmem

/-- Every segment of `normalizeString p false` (the absolute case) is
nonempty, slash-free, and neither `.` nor `..`. -/
theorem normalizeString_good (p : List Char) :
    ∀ s ∈ normalizeString p false, s ≠ [] ∧ s ≠ ['.'] ∧ s ≠ ['.', '.'] ∧ '/' ∉ s := by
  intro s hs
  unfold normalizeString at hs
  rw [List.mem_reverse] at hs
  have := stepSeg_foldl_good false (splitSlash p) (splitSlash_no_slash p) []
    (by simp) s hs
  exact ⟨this.1, this.2.1, this.2.2.2 rfl, this.2.2.1⟩

theorem joinSlash_ne_nil (s : List Char) (rest : List (List Char)) (hs : s ≠ []) :
    joinSlash (s :: rest) ≠ [] := by
  cases rest with
  | nil => simpa [joinSlash] using hs
  | cons s2 r2 => simp [joinSlash]

/-- The join of nonempty slash-free segments does not end in a separator. -/
theorem joinSlash_getLast_ne_slash (segs : List (List Char)) (hne : segs ≠ [])
    (h : ∀ s ∈ segs, s ≠ [] ∧ '/' ∉ s) :
    (joinSlash segs).getLast? ≠ some '/' := by
  induction segs with
  | nil => exact absurd rfl hne
  | cons s rest ih =>
    cases rest with
    | nil =>
      intro hlast
      have hs := h s (List.mem_cons_self _ _)
      exact hs.2 (List.mem_of_mem_getLast? hlast)
    | cons s2 r2 =>
      have hjoin : joinSlash (s :: s2 :: r2) = s ++ '/' :: joinSlash (s2 :: r2) := rfl
      have hs2 := h s2 (List.mem_cons_of_mem _ (List.mem_cons_self _ _))
      have hne2 : joinSlash (s2 :: r2) ≠ [] := joinSlash_ne_nil s2 r2 hs2.1
      rw [hjoin]
      have hsplit : '/' :: joinSlash (s2 :: r2) = ['/'] ++ joinSlash (s2 :: r2) := rfl
      rw [hsplit, ← List.append_assoc,
        List.getLast?_append_of_ne_nil _ hne2]
      exact ih (by simp) (fun x hx => h x (List.mem_cons_of_mem _ hx))

theorem stripTrailingSlashes_eq_self (s : List Char) (h : s.getLast? ≠ some '/') :
    stripTrailingSlashes s = s := by
  unfold stripTrailingSlashes
  cases hs : s.reverse with
  | nil =>
    rw [List.reverse_eq_nil_iff] at hs
    subst hs
    rfl
  | cons c rest =>
    have hc : ¬ c = '/' := by
      intro rfl_c
      apply h
      rw [← List.head?_reverse, hs, rfl_c]
      rfl
    rw [List.dropWhile_cons, if_neg (by simpa using hc), ← hs, List.reverse_reverse]

theorem stripTrailingSlashes_append_slash (s : List Char) :
    stripTrailingSlashes (s ++ ['/']) = stripTrailingSlashes s := by
  unfold stripTrailingSlashes
  rw [List.reverse_append]
  rfl

/-- The sandbox's final normalization of an absolute resolved path (optionally
carrying one trailing separator from `posix.normalize`) yields a normalized
absolute path. -/
theorem sandboxNormalized_good (body : List Char) (segs : List (List Char))
    (hgood : ∀ s ∈ segs, s ≠ [] ∧ s ≠ ['.'] ∧ s ≠ ['.', '.'] ∧ '/' ∉ s)
    (hbody : body = joinSlash segs ∨ body = joinSlash segs ++ ['/']) :
    isNormalizedAbsPath (sandboxNormalized ('/' :: body)) = true := by
  have hstrip : stripTrailingSlashes ('/' :: body)
      = stripTrailingSlashes ('/' :: joinSlash segs) := by
    rcases hbody with rfl | rfl
    · rfl
    · have : '/' :: (joinSlash segs ++ ['/']) = ('/' :: joinSlash segs) ++ ['/'] := by simp
      rw [this, stripTrailingSlashes_append_slash]
  cases segs with
  | nil =>
    unfold sandboxNormalized
    rw [hstrip]
    decide
  | cons s rest =>
    have hs := hgood s (List.mem_cons_self _ _)
    have hne : joinSlash (s :: rest) ≠ [] := joinSlash_ne_nil s rest hs.1
    have hlast : ('/' :: joinSlash (s :: rest)).getLast? ≠ some '/' := by
      have hsplit : '/' :: joinSlash (s :: rest) = ['/'] ++ joinSlash (s :: rest) := rfl
      rw [hsplit, List.getLast?_append_of_ne_nil _ hne]
      exact joinSlash_getLast_ne_slash _ (by simp)
        (fun x hx => ⟨(hgood x hx).1, (hgood x hx).2.2.2⟩)
    unfold sandboxNormalized
    rw [hstrip, stripTrailingSlashes_eq_self _ hlast]
    have hsne : ¬ ('/' :: joinSlash (s :: rest)).isEmpty = true := by simp
    rw [if_neg hsne]
    unfold isNormalizedAbsPath
    rw [Bool.or_eq_true]
    refine Or.inr ?_
    simp only [Bool.and_eq_true]
    constructor
    · rfl
    · refine List.all_eq_true.mpr ?_
      intro seg hseg
      rw [List.tail_cons, splitSlash_joinSlash (s :: rest) (by simp)
        (fun x hx => (hgood x hx).2.2.2)] at hseg
      have := hgood seg hseg
      simp [this.1, this.2.1, this.2.2.1]

/-- The resolve scan always ends absolute when the working directory is
absolute. -/
theorem resolve_fold_abs (cwd : List Char) (hcwd : cwd.head? = some '/') :
    ∀ l : List (List Char), ((l ++ [cwd]).foldl resolveStep ([], false)).2 = true := by
  have hstep_keep : ∀ st p, st.2 = true → (resolveStep st p).2 = true := by
    intro st p h
    unfold resolveStep
    simp [h]
  intro l
  rw [List.foldl_append]
  cases hst : (l.foldl resolveStep ([], false)).2 with
  | true =>
    have : (List.foldl resolveStep (l.foldl resolveStep ([], false)) [cwd])
        = resolveStep (l.foldl resolveStep ([], false)) cwd := rfl
    rw [this]
    exact hstep_keep _ cwd hst
  | false =>
    have hcne : ¬ cwd.isEmpty = true := by
      cases cwd
      · simp at hcwd
      · simp
    have : (List.foldl resolveStep (l.foldl resolveStep ([], false)) [cwd])
        = resolveStep (l.foldl resolveStep ([], false)) cwd := rfl
    rw [this, show ∀ st p, resolveStep st p
        = if st.2 = true then st
          else if p.isEmpty = true then st
          else (p ++ '/' :: st.1, p.head? == some '/') from fun st p => rfl,
      if_neg (by simp [hst]), if_neg hcne]
    simp [hcwd]

/-- `posix.resolve` with an absolute working directory returns a slash
followed by the join of well-formed segments. -/
theorem posixResolve_shape (cwd : List Char) (args : List (List Char))
    (hcwd : cwd.head? = some '/') :
    ∃ segs, posixResolve cwd args = '/' :: joinSlash segs
      ∧ ∀ s ∈ segs, s ≠ [] ∧ s ≠ ['.'] ∧ s ≠ ['.', '.'] ∧ '/' ∉ s := by
  have habs := resolve_fold_abs cwd hcwd args.reverse
  refine ⟨normalizeString ((args.reverse ++ [cwd]).foldl resolveStep ([], false)).1 false,
    ?_, normalizeString_good _⟩
  simp only [posixResolve]
  rw [habs]
  simp

/-- `posix.normalize` of an absolute path returns a slash followed by the join
of the normalized segments, possibly with one trailing separator restored. -/
theorem posixNormalize_shape (p : List Char) (hne : p ≠ []) (habs : p.head? = some '/') :
    ∃ body, posixNormalize p = '/' :: body
      ∧ (body = joinSlash (normalizeString p false)
         ∨ body = joinSlash (normalizeString p false) ++ ['/']) := by
  have hisne : ¬ p.isEmpty = true := by simp [hne]
  by_cases htr : (p.getLast? == some '/') = true
  · by_cases hbe : (joinSlash (normalizeString p false)).isEmpty = true
    · refine ⟨joinSlash (normalizeString p false), ?_, Or.inl rfl⟩
      simp [posixNormalize, hisne, habs, htr, hbe]
    · refine ⟨joinSlash (normalizeString p false) ++ ['/'], ?_, Or.inr rfl⟩
      simp [posixNormalize, hisne, habs, htr, hbe]
  · refine ⟨joinSlash (normalizeString p false), ?_, Or.inl rfl⟩
    simp [posixNormalize, hisne, habs, htr]

/-- Whenever `sandboxPath`'s branch selection succeeds, the raw resolved value
is absolute and made of well-formed segments (up to one trailing separator). -/
theorem sandboxResolve_shape (allowedRoots : List (List Char)) (cwd userPath : List Char)
    (basePath : Option (List Char)) (hcwd : cwd.head? = some '/') (res : List Char)
    (hok : sandboxResolve allowedRoots cwd userPath basePath = .ok res) :
    ∃ segs body, res = '/' :: body
      ∧ (body = joinSlash segs ∨ body = joinSlash segs ++ ['/'])
      ∧ ∀ s ∈ segs, s ≠ [] ∧ s ≠ ['.'] ∧ s ≠ ['.', '.'] ∧ '/' ∉ s := by
  unfold sandboxResolve at hok
  split at hok
  · rename_i bp hbp
    injection hok with h
    subst h
    obtain ⟨segs, heq, hgood⟩ := posixResolve_shape cwd [bp, userPath] hcwd
    exact ⟨segs, joinSlash segs, heq, Or.inl rfl, hgood⟩
  · split at hok
    · rename_i habs
      injection hok with h
      subst h
      have hne : userPath ≠ [] := by
        intro h
        subst h
        simp at habs
      obtain ⟨body, heq, hd⟩ := posixNormalize_shape userPath hne (by simpa using habs)
      exact ⟨normalizeString userPath false, body, heq, hd, normalizeString_good userPath⟩
    · split at hok
      · rename_i root0 hroot
        injection hok with h
        subst h
        obtain ⟨segs, heq, hgood⟩ := posixResolve_shape cwd [root0, userPath] hcwd
        exact ⟨segs, joinSlash segs, heq, Or.inl rfl, hgood⟩
      · cases hok

/-- Claim C2: `sandboxPath` throws on empty input and on input containing a
null byte; and every returned value is an absolute normalized path (no `.` or
`..` segments, no empty segments, no trailing separator) that equals, or is a
strict descendant of (extends across a separator), at least one configured
allowed root — the containment test being performed on the normalized
result.  The working directory is required to be absolute, as the OS
guarantees for `process.cwd()`. -/
theorem C2_sandboxPath_containment (allowedRoots : List (List Char))
    (cwd userPath : List Char) (basePath : Option (List Char))
    (hcwd : cwd.head? = some '/') :
    (userPath = [] →
      sandboxPath allowedRoots cwd userPath basePath = .error .emptyPath)
    ∧ (Char.ofNat 0 ∈ userPath →
      sandboxPath allowedRoots cwd userPath basePath = .error .nullByte)
    ∧ (∀ r, sandboxPath allowedRoots cwd userPath basePath = .ok r →
        isNormalizedAbsPath r = true
        ∧ ∃ root ∈ allowedRoots,
            r = stripTrailingSlashes root
            ∨ (stripTrailingSlashes root ++ ['/']) <+: r) := by
  refine ⟨?_, ?_, ?_⟩
  · intro h
    subst h
    rfl
  · intro hmem
    have hne : ¬ userPath.isEmpty = true := by
      cases userPath
      · simp at hmem
      · simp
    have hcont : userPath.contains (Char.ofNat 0) = true := by
      simpa using hmem
    unfold sandboxPath
    rw [if_neg hne, if_pos hcont]
  · intro r hok
    unfold sandboxPath at hok
    split at hok
    · cases hok
    · split at hok
      · cases hok
      · split at hok
        · cases hok
        · rename_i res hres
          split at hok
          · rename_i hallow
            injection hok with h
            subst h
            obtain ⟨segs, body, rfl, hbody, hgood⟩ :=
              sandboxResolve_shape allowedRoots cwd userPath basePath hcwd res hres
            constructor
            · exact sandboxNormalized_good body segs hgood hbody
            · obtain ⟨root, hrmem, hr⟩ := List.any_eq_true.mp hallow
              refine ⟨root, hrmem, ?_⟩
              unfold rootAllows at hr
              rw [Bool.or_eq_true] at hr
              rcases hr with h1 | h2
              · exact Or.inl (by simpa using h1)
              · exact Or.inr (List.isPrefixOf_iff_prefix.mp h2)
          · cases hok

/-- Witness for C2 at a traversal-style concrete input under root
`/srv/samba` with working directory `/`. -/
theorem C2_witness :
    ("/".data : List Char).head? = some '/'
    ∧ (("../escape".data = ([] : List Char) →
        sandboxPath ["/srv/samba".data] "/".data "../escape".data none
          = .error .emptyPath)
      ∧ (Char.ofNat 0 ∈ "../escape".data →
        sandboxPath ["/srv/samba".data] "/".data "../escape".data none
          = .error .nullByte)
      ∧ (∀ r, sandboxPath ["/srv/samba".data] "/".data "../escape".data none = .ok r →
          isNormalizedAbsPath r = true
          ∧ ∃ root ∈ ["/srv/samba".data],
              r = stripTrailingSlashes root
              ∨ (stripTrailingSlashes root ++ ['/']) <+: r)) :=
  ⟨by decide,
   C2_sandboxPath_containment ["/srv/samba".data] "/".data "../escape".data none
     (by decide)⟩

/-! ### Claim C9 — size of the session-id space -/

theorem randomUUIDBytes_eq_piMap : randomUUIDBytes = Pi.map uuidCoord := rfl

/-- Each byte of a generated UUID takes exactly `nibbleDim i` values. -/
theorem range_uuidCoord_card (i : Fin 16) :
    Nat.card (Set.range (uuidCoord i)) = nibbleDim i := by
  by_cases h6 : i.val = 6
  · have hrange : Set.range (uuidCoord i) = Set.Ico 64 80 := by
      ext n
      constructor
      · rintro ⟨b, rfl⟩
        simp [uuidCoord, h6]
        omega
      · intro hn
        simp only [Set.mem_Ico] at hn
        refine ⟨⟨n - 64, by omega⟩, ?_⟩
        simp [uuidCoord, h6]
        omega
    rw [hrange, ← Finset.coe_Ico, Set.Nat.card_coe_set_eq, Set.ncard_coe_Finset]
    simp [nibbleDim, h6]
  · by_cases h8 : i.val = 8
    · have hrange : Set.range (uuidCoord i) = Set.Ico 128 192 := by
        ext n
        constructor
        · rintro ⟨b, rfl⟩
          simp [uuidCoord, h6, h8]
          omega
        · intro hn
          simp only [Set.mem_Ico] at hn
          refine ⟨⟨n - 128, by omega⟩, ?_⟩
          simp [uuidCoord, h6, h8]
          omega
      rw [hrange, ← Finset.coe_Ico, Set.Nat.card_coe_set_eq, Set.ncard_coe_Finset]
      simp [nibbleDim, h6, h8]
    · have hrange : Set.range (uuidCoord i) = Set.Ico 0 256 := by
        ext n
        constructor
        · rintro ⟨b, rfl⟩
          simp [uuidCoord, h6, h8, b.isLt]
        · intro hn
          simp only [Set.mem_Ico] at hn
          exact ⟨⟨n, hn.2⟩, by simp [uuidCoord, h6, h8]⟩
      rw [hrange, ← Finset.coe_Ico, Set.Nat.card_coe_set_eq, Set.ncard_coe_Finset]
      simp [nibbleDim, h6, h8]

/-- The byte space of generated UUIDs has exactly `2 ^ 122` elements. -/
theorem uuid_bytes_card : Nat.card (Set.range randomUUIDBytes) = 2 ^ 122 := by
  rw [randomUUIDBytes_eq_piMap, Set.range_piMap,
    Nat.card_congr (Equiv.Set.univPi (fun i => Set.range (uuidCoord i))),
    Nat.card_pi, Finset.prod_congr rfl (fun i _ => range_uuidCoord_card i)]
  decide

theorem hexDigitChar_injOn :
    ∀ a ∈ Finset.range 16, ∀ b ∈ Finset.range 16, hexDigitChar a = hexDigitChar b → a = b := by
  decide

theorem byteHex_inj (a b : Nat) (ha : a < 256) (hb : b < 256) (h : byteHex a = byteHex b) :
    a = b := by
  unfold byteHex at h
  simp only [List.cons.injEq, and_true] at h
  have h1 := hexDigitChar_injOn (a / 16) (by simp; omega) (b / 16) (by simp; omega) h.1
  have h2 := hexDigitChar_injOn (a % 16) (by simp; omega) (b % 16) (by simp; omega) h.2
  omega

theorem byteHex_append_inj (a b : Nat) (r s : List Char) (ha : a < 256) (hb : b < 256)
    (h : byteHex a ++ r = byteHex b ++ s) : a = b ∧ r = s := by
  obtain ⟨h1, h2⟩ := List.append_inj h rfl
  exact ⟨byteHex_inj a b ha hb h1, h2⟩

/-- The hyphenated-hex rendering is injective on byte vectors. -/
theorem uuidFormat_inj (x y : Fin 16 → Nat) (hx : ∀ i, x i < 256) (hy : ∀ i, y i < 256)
    (h : uuidFormat x = uuidFormat y) : x = y := by
  unfold uuidFormat at h
  obtain ⟨e0, h⟩ := byteHex_append_inj _ _ _ _ (hx 0) (hy 0) h
  obtain ⟨e1, h⟩ := byteHex_append_inj _ _ _ _ (hx 1) (hy 1) h
  obtain ⟨e2, h⟩ := byteHex_append_inj _ _ _ _ (hx 2) (hy 2) h
  obtain ⟨e3, h⟩ := byteHex_append_inj _ _ _ _ (hx 3) (hy 3) h
  injection h with _ h
  obtain ⟨e4, h⟩ := byteHex_append_inj _ _ _ _ (hx 4) (hy 4) h
  obtain ⟨e5, h⟩ := byteHex_append_inj _ _ _ _ (hx 5) (hy 5) h
  injection h with _ h
  obtain ⟨e6, h⟩ := byteHex_append_inj _ _ _ _ (hx 6) (hy 6) h
  obtain ⟨e7, h⟩ := byteHex_append_inj _ _ _ _ (hx 7) (hy 7) h
  injection h with _ h
  obtain ⟨e8, h⟩ := byteHex_append_inj _ _ _ _ (hx 8) (hy 8) h
  obtain ⟨e9, h⟩ := byteHex_append_inj _ _ _ _ (hx 9) (hy 9) h
  injection h with _ h
  obtain ⟨e10, h⟩ := byteHex_append_inj _ _ _ _ (hx 10) (hy 10) h
  obtain ⟨e11, h⟩ := byteHex_append_inj _ _ _ _ (hx 11) (hy 11) h
  obtain ⟨e12, h⟩ := byteHex_append_inj _ _ _ _ (hx 12) (hy 12) h
  obtain ⟨e13, h⟩ := byteHex_append_inj _ _ _ _ (hx 13) (hy 13) h
  obtain ⟨e14, h⟩ := byteHex_append_inj _ _ _ _ (hx 14) (hy 14) h
  have e15 := byteHex_inj _ _ (hx 15) (hy 15) h
  funext i
  fin_cases i <;> assumption

theorem range_uuid_bytes_bounded :
    ∀ z ∈ Set.range randomUUIDBytes, ∀ i, z i < 256 := by
  rintro z ⟨bs, rfl⟩ i
  have hb := (bs i).isLt
  unfold randomUUIDBytes uuidCoord
  split_ifs <;> omega

/-- The session-id space — every string `crypto.randomUUID()` can return —
has exactly `2 ^ 122` elements. -/
theorem uuid_card : Set.ncard (Set.range randomUUID) = 2 ^ 122 := by
  have hcomp : Set.range randomUUID = uuidFormat '' Set.range randomUUIDBytes := by
    rw [show randomUUID = uuidFormat ∘ randomUUIDBytes from rfl, Set.range_comp]
  rw [hcomp, Set.ncard_image_of_injOn (fun x hx y hy h =>
    uuidFormat_inj x y (range_uuid_bytes_bounded x hx) (range_uuid_bytes_bounded y hy) h),
    ← Set.Nat.card_coe_set_eq, uuid_bytes_card]

/-- Claim C9 (counterexample): the space of session ids `createSession` can
return — the range of `crypto.randomUUID()` — has fewer than `2 ^ 128`
distinct values, refuting the "at least 128 bits of randomness" claim. -/
theorem C9_counterexample : Set.ncard (Set.range randomUUID) < 2 ^ 128 := by
  rw [uuid_card]
  norm_num

/-- Claim C9 (amended): the session id returned by `createSession` is drawn
from a space of exactly `2 ^ 122` distinct values: a version-4 UUID fixes six
bits (four version bits of byte 6, two variant bits of byte 8) of its sixteen
random bytes, leaving 122 bits of randomness. -/
theorem C9_uuid_space_amended : Set.ncard (Set.range randomUUID) = 2 ^ 122 :=
  uuid_card
